import Mathlib

/-!
Verification development for the ROPfuscator ROP-chain lowering and emission
engine (`src/ROPfuscatorCore.cpp`, unified newer variant).  The C++ sources are
shallowly embedded: machine integers are modelled as `Nat`/`Int` with explicit
reduction modulo 2^32 where overflow matters, LLVM/BinaryAutopsy collaborators
are modelled as oracles supplied in an environment record, and fatal internal
errors (`exit(1)`) are modelled with `Except`.
-/

set_option maxHeartbeats 1600000

namespace Ropf

/-! ### 32-bit machine arithmetic -/

/-- 2^32, the modulus of 32-bit machine arithmetic. -/
def UINT32 : ℕ := 4294967296

/-- Conversion of a C++ signed 64-bit expression to `uint32_t` (wrap mod 2^32). -/
def toU32 (z : ℤ) : ℕ := (z % (UINT32 : ℤ)).toNat

/-- `uint32_t` subtraction `a - b` (wraps modulo 2^32); used for
`offset -= sym->Address` in the GADGET case. -/
def sub32 (a b : ℕ) : ℕ := (a % UINT32 + (UINT32 - b % UINT32)) % UINT32

/-- `uint32_t` unary negation (wraps modulo 2^32); used for `-value` in
`PUSH_LABEL::compile`. -/
def neg32 (a : ℕ) : ℕ := (UINT32 - a % UINT32) % UINT32

/-- 32-bit wrap-around of `add eax, imm`: the architectural value of EAX
after the addition. -/
def addExec32 (eax d : ℕ) : ℕ := (eax + d) % UINT32

/-! ### Register codes (abstract numeric codes for the LLVM register enum;
only distinctness and the identity of EFLAGS matter to the engine). -/

/-- Register code of X86::EAX. -/
def EAX : ℕ := 19

/-- Register code of X86::ESP. -/
def ESP : ℕ := 30

/-- Register code of X86::EFLAGS. -/
def EFLAGS_REG : ℕ := 25

/-! ### Labels, symbols, gadgets, opaque constructs -/

/-- Assembler labels handled by one `insertROPChain` call: the chain label, the
resume label (`asChainLabel` / `asResumeLabel` in the source) and anonymous
labels allocated by `as.label()` for jump targets, numbered by allocation. -/
inductive AsmLabel where
  | chainLbl : AsmLabel
  | resumeLbl : AsmLabel
  | anon (n : ℕ) : AsmLabel
deriving DecidableEq

/-- An exported symbol of the analysed library (`BinAutopsy` `Symbol`).
`sid` is the symbol's identity, used to model the `isUsed` flag via a set of
used symbol ids. -/
structure Symbol where
  sid : ℕ
  slabel : String
  address : ℕ
  version : String
  symverDirective : String
deriving DecidableEq

/-- A microgadget: the set of addresses at which the gadget's byte sequence
occurs in the library. -/
structure Microgadget where
  addresses : List ℕ
deriving DecidableEq

/-- Terms produced by the `OpaqueConstructFactory` calls made by the engine.
The factory itself is an external collaborator; the engine only composes these
constructors, so the term structure records exactly which factory calls were
made.  Output values and clobber sets of a construct are supplied by an oracle
(fields `ocOut` / `ocClobbers` of `InsertEnv`). -/
inductive OpaqueConstruct where
  | constant32 (algo : String) : OpaqueConstruct
  | branching32 (count : ℕ) (algo : String) : OpaqueConstruct
  | adjustor (inputs outputs : List ℕ) : OpaqueConstruct
  | compose (a b : OpaqueConstruct) : OpaqueConstruct
deriving DecidableEq

/-! ### Abstract ROP chains -/

/-- One element of an abstract ROP chain (`ChainElem` in `ROPEngine.h`). -/
inductive ChainElem where
  | immValue (value : ℤ) : ChainElem
  | immGlobal (global : ℕ) (value : ℤ) : ChainElem
  | gadget (g : Microgadget) : ChainElem
  | jmpBlock (target : ℕ) : ChainElem
  | jmpFallthrough : ChainElem
  | espPush (espId : ℤ) : ChainElem
  | espOffset (espId : ℤ) (value : ℤ) : ChainElem
deriving DecidableEq

/-- Flag-save discipline of a chain. -/
inductive FlagSaveMode where
  | notSaved : FlagSaveMode
  | saveBeforeExec : FlagSaveMode
  | saveAfterExec : FlagSaveMode
deriving DecidableEq

/-- An abstract ROP chain (`ROPChain` in `ROPEngine.h`). -/
structure ROPChain where
  elems : List ChainElem := []
  flagSave : FlagSaveMode := .notSaved
  hasConditionalJump : Bool := false
  hasUnconditionalJump : Bool := false
deriving DecidableEq

/-- A chain contains a jump iff either jump flag is set. -/
def ROPChain.hasJump (c : ROPChain) : Bool :=
  c.hasConditionalJump || c.hasUnconditionalJump

/-- Modelled from the spec: `ROPChain::valid` (declared in the ROP engine
header, which is not among the sources).  The driver flushes "the current
merged chain (if any)", so a chain is valid when it holds at least one
element. -/
def ROPChain.valid (c : ROPChain) : Bool := !c.elems.isEmpty

/-- Modelled from the spec: `ROPChain::canMerge` (declared in the ROP engine
header, which is not among the sources).  "Two chains are mergeable if and
only if neither contains a jump." -/
def ROPChain.canMerge (a b : ROPChain) : Bool := !a.hasJump && !b.hasJump

/-- Index of a flag-save mode in the lattice
`NotSaved < SaveBeforeExec < SaveAfterExec`. -/
def FlagSaveMode.toIdx : FlagSaveMode → ℕ
  | .notSaved => 0
  | .saveBeforeExec => 1
  | .saveAfterExec => 2

/-- Modelled from the spec: the join ("OR") of two flag-save modes in the
lattice `NotSaved < SaveBeforeExec < SaveAfterExec`, used by `ROPChain::merge`
(declared in the ROP engine header, which is not among the sources). -/
def FlagSaveMode.join (a b : FlagSaveMode) : FlagSaveMode :=
  if a.toIdx ≤ b.toIdx then b else a

/-- Modelled from the spec: `ROPChain::merge` (declared in the ROP engine
header, which is not among the sources).  "Merging concatenates element lists
and ORs the flag-save modes using the lattice." -/
def ROPChain.merge (a b : ROPChain) : ROPChain :=
  { elems := a.elems ++ b.elems,
    flagSave := a.flagSave.join b.flagSave,
    hasConditionalJump := a.hasConditionalJump || b.hasConditionalJump,
    hasUnconditionalJump := a.hasUnconditionalJump || b.hasUnconditionalJump }

/-! ### Obfuscation parameters -/

/-- Per-function obfuscation configuration (`ObfuscationParameter`). -/
structure ObfuscationParameter where
  obfuscationEnabled : Bool := true
  opaquePredicateEnabled : Bool := false
  obfuscateImmediateOperand : Bool := true
  obfuscateBranchTarget : Bool := true
  opaqueBranchDivergenceEnabled : Bool := false
  opaqueBranchDivergenceMaxBranches : ℕ := 32
  opaqueConstantAlgorithm : String := "mov"
  opaqueBranchDivergenceAlgorithm : String := "addreg+mov"
deriving DecidableEq

/-! ### Lowered push instructions -/

/-- The lowering shape of one `ROPChainPushInst` subclass. -/
inductive PushInstKind where
  | pushImm (value : ℤ) : PushInstKind
  | pushGV (global : ℕ) (offset : ℤ) : PushInstKind
  | pushGadget (anchor : Symbol) (offset : ℕ) : PushInstKind
  | pushLabel (label : AsmLabel) : PushInstKind
  | pushESP : PushInstKind
  | pushEFLAGS : PushInstKind
deriving DecidableEq

/-- A lowered push instruction: a shape plus an optional attached opaque
constant generator. -/
structure PushInst where
  kind : PushInstKind
  opaqueConstant : Option OpaqueConstruct
deriving DecidableEq

/-! ### Emitted assembly items -/

/-- One item appended to the function's assembly stream by the emission
engine (the `X86AssembleHelper` calls made by `insertROPChain` and
`ROPChainPushInst::compile`).  `lea disp` stands for `lea esp, [esp+disp]`,
`ocCompile oc` for `oc->compile(as, 0)`. -/
inductive EmitItem where
  | pushImm (v : ℤ) : EmitItem
  | pushGlobal (g : ℕ) (off : ℤ) : EmitItem
  | pushSymbolOffset (sym : Symbol) (off : ℕ) : EmitItem
  | pushLabel (l : AsmLabel) : EmitItem
  | pushReg (r : ℕ) : EmitItem
  | pushf : EmitItem
  | pop (r : ℕ) : EmitItem
  | popf : EmitItem
  | lea (disp : ℤ) : EmitItem
  | addImm (r : ℕ) (v : ℕ) : EmitItem
  | addGlobal (r : ℕ) (g : ℕ) (v : ℕ) : EmitItem
  | addSymbol (r : ℕ) (sym : Symbol) : EmitItem
  | addLabelOffset (r : ℕ) (l : AsmLabel) (disp : ℕ) : EmitItem
  | ocCompile (oc : OpaqueConstruct) : EmitItem
  | label (l : AsmLabel) : EmitItem
  | inlineasm (s : String) : EmitItem
  | ret : EmitItem
deriving DecidableEq

/-! ### The environment of one emission run -/

/-- Oracles and anchor facts consumed by `insertROPChain`.
`isLastInstrInBlock` models `MI.getNextNode() == nullptr`; `layoutSucc` is the
layout successor of the anchor's block if it occurs among the block's
successors (the loop over `succ_begin()/succ_end()` testing
`isLayoutSuccessor`); `randomSymbols n` is the symbol returned by the n-th
`BA->getRandomSymbol()` call; `sampleIdxs n` is the list of (increasing)
positions selected by the n-th `std::sample` call; `ocOut`/`ocClobbers` give
`getOutput().findValues(EAX)` and `getClobberedRegs()` of an opaque
construct. -/
structure InsertEnv where
  isLastInstrInBlock : Bool
  layoutSucc : Option ℕ
  randomSymbols : ℕ → Symbol
  sampleIdxs : ℕ → List ℕ
  ocOut : OpaqueConstruct → List ℕ
  ocClobbers : OpaqueConstruct → Finset ℕ

/-- The contract of `std::sample(population, k)`: the selected positions are
strictly increasing (selection preserves iteration order), within bounds, and
exactly `min k |population|` many. -/
def SampleOk (pop : List ℕ) (k : ℕ) (idxs : List ℕ) : Prop :=
  idxs.Pairwise (· < ·) ∧ (∀ i ∈ idxs, i < pop.length) ∧
    idxs.length = min k pop.length

instance (pop : List ℕ) (k : ℕ) (idxs : List ℕ) : Decidable (SampleOk pop k idxs) := by
  unfold SampleOk; infer_instance

/-- The elements of `pop` selected at positions `idxs` (the output written by
`std::sample` through the back inserter, with the `uint64 → uint32` narrowing
applied afterwards by the caller). -/
def sampleList (pop : List ℕ) (idxs : List ℕ) : List ℕ :=
  idxs.filterMap (fun i => pop.get? i)

/-- `num_branches` of the GADGET case (`src/ROPfuscatorCore.cpp:375-378`):
`min(max_branches, |addresses|)` when branch divergence is enabled, `1`
otherwise. -/
def gadgetNumBranches (param : ObfuscationParameter) (addrs : List ℕ) : ℕ :=
  if param.opaqueBranchDivergenceEnabled
  then min param.opaqueBranchDivergenceMaxBranches addrs.length else 1

/-- `offset -= sym->Address` applied to each sampled address
(`src/ROPfuscatorCore.cpp:383-385`), in 32-bit wrap-around arithmetic. -/
def gadgetOffsets (sym : Symbol) (sampled : List ℕ) : List ℕ :=
  sampled.map (fun a => sub32 a sym.address)

/-- The opaque constant built first in the GADGET case
(`src/ROPfuscatorCore.cpp:399-407`): a branching opaque constant over
`offsets.size()` values when `num_branches > 1`, an ordinary opaque constant
otherwise. -/
def gadgetBaseOC (param : ObfuscationParameter) (numBranches : ℕ)
    (offsets : List ℕ) : OpaqueConstruct :=
  if numBranches > 1
  then OpaqueConstruct.branching32 offsets.length param.opaqueBranchDivergenceAlgorithm
  else OpaqueConstruct.constant32 param.opaqueConstantAlgorithm

/-- The opaque construct attached to a gadget push when opaque predicates are
enabled (`src/ROPfuscatorCore.cpp:397-414`): the composition of a value
adjustor (mapping the base construct's possible outputs to the sampled
offsets) with the base construct. -/
def gadgetOpaque (param : ObfuscationParameter) (ocOut : OpaqueConstruct → List ℕ)
    (numBranches : ℕ) (offsets : List ℕ) : Option OpaqueConstruct :=
  if param.opaquePredicateEnabled then
    let oc0 := gadgetBaseOC param numBranches offsets
    some (OpaqueConstruct.compose (OpaqueConstruct.adjustor (ocOut oc0) offsets) oc0)
  else none

/-- Whether an attached opaque construct is the composition of a value
adjustor with a *branching* opaque constant (discriminator used to settle the
branch-divergence claim). -/
def isBranchingComposition : Option OpaqueConstruct → Bool
  | some (OpaqueConstruct.compose _ (OpaqueConstruct.branching32 _ _)) => true
  | _ => false

/-! ### The element-lowering loop of `insertROPChain` -/

/-- The mutable locals of `insertROPChain` threaded through the per-element
loop, plus the monotone `Symbol::isUsed` state (`used`), the RNG draw counter
(`rngIdx`), the anonymous-label allocator (`labelCtr`), the labels inserted at
the start of other blocks by `putLabelInMBB` (`sideLabels`) and the successors
added by `addSuccessorWithoutProb` (`addedSuccs`). -/
structure LoopState where
  pushchain : List PushInst
  espOffsetMap : List (ℤ × ℤ)
  espoffset : ℤ
  versionedSymbols : List Symbol
  resumeLabelRequired : Bool
  used : Finset ℕ
  rngIdx : ℕ
  labelCtr : ℕ
  sideLabels : List (ℕ × AsmLabel)
  addedSuccs : List ℕ
deriving DecidableEq

/-- Lookup in the `std::map<int,int> espOffsetMap`; entries are prepended on
insertion so the head is the most recent binding for a key. -/
def lookupEsp : List (ℤ × ℤ) → ℤ → Option ℤ
  | [], _ => none
  | (k, v) :: rest, key => if k = key then some v else lookupEsp rest key

/-- Lowering of one `ChainElem` to a `ROPChainPushInst` (one arm of the
`switch` in the reverse-order loop of `insertROPChain`,
`src/ROPfuscatorCore.cpp:344-490`).  The `ESP_OFFSET`-without-`ESP_PUSH`
diagnostic followed by `exit(1)` is modelled as `Except.error`.  Note that
`env.isLastInstrInBlock` here is the value of the local variable at loop time,
i.e. already cleared when `flagSave = SAVE_AFTER_EXEC`. -/
def lowerElem (param : ObfuscationParameter) (env : InsertEnv) (elem : ChainElem)
    (st : LoopState) : Except String LoopState :=
  match elem with
  | .immValue v =>
      let oc := if param.opaquePredicateEnabled && param.obfuscateImmediateOperand
        then some (OpaqueConstruct.constant32 param.opaqueConstantAlgorithm) else none
      .ok { st with pushchain := st.pushchain ++ [⟨.pushImm v, oc⟩],
                    espoffset := st.espoffset - 4 }
  | .immGlobal g v =>
      let oc := if param.opaquePredicateEnabled && param.obfuscateImmediateOperand
        then some (OpaqueConstruct.constant32 param.opaqueConstantAlgorithm) else none
      .ok { st with pushchain := st.pushchain ++ [⟨.pushGV g v, oc⟩],
                    espoffset := st.espoffset - 4 }
  | .gadget g =>
      let sym := env.randomSymbols st.rngIdx
      let numBranches := gadgetNumBranches param g.addresses
      let sampled := sampleList g.addresses (env.sampleIdxs st.rngIdx)
      let offsets := gadgetOffsets sym sampled
      let marked :=
        if sym.sid ∉ st.used ∧ sym.version ≠ "Base"
        then (st.versionedSymbols ++ [sym], insert sym.sid st.used)
        else (st.versionedSymbols, st.used)
      let oc := gadgetOpaque param env.ocOut numBranches offsets
      .ok { st with pushchain := st.pushchain ++ [⟨.pushGadget sym offsets.headI, oc⟩],
                    versionedSymbols := marked.1, used := marked.2,
                    rngIdx := st.rngIdx + 1, espoffset := st.espoffset - 4 }
  | .jmpBlock target =>
      let targetLabel := AsmLabel.anon st.labelCtr
      let oc := if param.opaquePredicateEnabled && param.obfuscateBranchTarget
        then some (OpaqueConstruct.constant32 param.opaqueConstantAlgorithm) else none
      .ok { st with addedSuccs := st.addedSuccs ++ [target],
                    sideLabels := st.sideLabels ++ [(target, targetLabel)],
                    pushchain := st.pushchain ++ [⟨.pushLabel targetLabel, oc⟩],
                    labelCtr := st.labelCtr + 1, espoffset := st.espoffset - 4 }
  | .jmpFallthrough =>
      if env.isLastInstrInBlock then
        match env.layoutSucc with
        | some blk =>
            let oc := if param.opaquePredicateEnabled && param.obfuscateBranchTarget
              then some (OpaqueConstruct.constant32 param.opaqueConstantAlgorithm)
              else none
            .ok { st with sideLabels := st.sideLabels ++ [(blk, AsmLabel.resumeLbl)],
                          pushchain := st.pushchain ++ [⟨.pushLabel .resumeLbl, oc⟩],
                          espoffset := st.espoffset - 4 }
        | none =>
            .ok { st with pushchain := st.pushchain ++ [⟨.pushImm 0, none⟩],
                          espoffset := st.espoffset - 4 }
      else
        let oc := if param.opaquePredicateEnabled && param.obfuscateBranchTarget
          then some (OpaqueConstruct.constant32 param.opaqueConstantAlgorithm) else none
        .ok { st with pushchain := st.pushchain ++ [⟨.pushLabel .resumeLbl, oc⟩],
                      resumeLabelRequired := true, espoffset := st.espoffset - 4 }
  | .espPush eid =>
      .ok { st with pushchain := st.pushchain ++ [⟨.pushESP, none⟩],
                    espOffsetMap := (eid, st.espoffset) :: st.espOffsetMap,
                    espoffset := st.espoffset - 4 }
  | .espOffset eid v =>
      match lookupEsp st.espOffsetMap eid with
      | some c =>
          .ok { st with pushchain := st.pushchain ++ [⟨.pushImm (v - c), none⟩],
                        espoffset := st.espoffset - 4 }
      | none =>
          .error "Internal error: ESP_OFFSET should precede corresponding ESP_PUSH"

/-- The per-element loop: elements are passed in iteration order, which for
`insertROPChain` is the reverse of chain order (`chain.rbegin()..rend()`). -/
def lowerElems (param : ObfuscationParameter) (env : InsertEnv) :
    List ChainElem → LoopState → Except String LoopState
  | [], st => .ok st
  | e :: rest, st =>
      match lowerElem param env e st with
      | .ok st1 => lowerElems param env rest st1
      | .error msg => .error msg

/-! ### Compilation of push instructions -/

/-- `ROPChainPushInst::compile` for each subclass
(`src/ROPfuscatorCore.cpp:142-247`): the assembly items appended for one
lowered push. -/
def compilePush (ocOut : OpaqueConstruct → List ℕ) (p : PushInst) : List EmitItem :=
  match p.kind, p.opaqueConstant with
  | .pushImm v, some oc =>
      let out := (ocOut oc).headI % UINT32
      [.ocCompile oc, .addImm EAX (toU32 (v - out)), .pushReg EAX]
  | .pushImm v, none => [.pushImm v]
  | .pushGV g off, some oc =>
      let out := (ocOut oc).headI % UINT32
      [.ocCompile oc, .addGlobal EAX g (toU32 (off - out)), .pushReg EAX]
  | .pushGV g off, none => [.pushGlobal g off]
  | .pushGadget sym _, some oc =>
      [.ocCompile oc, .addSymbol EAX sym, .pushReg EAX]
  | .pushGadget sym off, none => [.pushSymbolOffset sym off]
  | .pushLabel l, some oc =>
      let out := (ocOut oc).headI % UINT32
      [.ocCompile oc, .addLabelOffset EAX l (neg32 out), .pushReg EAX]
  | .pushLabel l, none => [.pushLabel l]
  | .pushESP, _ => [.pushReg ESP]
  | .pushEFLAGS, _ => [.pushf]

/-! ### Saved registers, prologue, epilogue -/

/-- The union of the clobber sets of every opaque constant attached to a push
of the chain (the quantity named by the spec). -/
def clobUnion (ocClobbers : OpaqueConstruct → Finset ℕ)
    (pushchain : List PushInst) : Finset ℕ :=
  pushchain.foldl (fun acc p =>
    match p.opaqueConstant with
    | some oc => acc ∪ ocClobbers oc
    | none => acc) ∅

/-- The `savedRegs` computation of `insertROPChain`
(`src/ROPfuscatorCore.cpp:507-522`): clobbered registers of attached opaque
constants (only when opaque predicates are enabled), then EFLAGS inserted when
`flagSave = SAVE_BEFORE_EXEC` and erased otherwise. -/
def computeSavedRegs (param : ObfuscationParameter)
    (ocClobbers : OpaqueConstruct → Finset ℕ) (pushchain : List PushInst)
    (fs : FlagSaveMode) : Finset ℕ :=
  let s := if param.opaquePredicateEnabled then clobUnion ocClobbers pushchain else ∅
  if fs = .saveBeforeExec then insert EFLAGS_REG s else s.erase EFLAGS_REG

/-- Iteration order of the saved-register `std::set<unsigned>`: ascending. -/
def prologueRegOrder (s : Finset ℕ) : List ℕ := s.sort (· ≤ ·)

/-- Restore order of the epilogue (`savedRegs.rbegin()..rend()`): descending,
i.e. the reverse of the prologue order. -/
def epilogueRegOrder (s : Finset ℕ) : List ℕ := (s.sort (· ≤ ·)).reverse

/-- Saving one register in the prologue: `pushf` for EFLAGS, `push reg`
otherwise. -/
def regSaveItem (r : ℕ) : EmitItem := if r = EFLAGS_REG then .pushf else .pushReg r

/-- Restoring one register in the epilogue: `popf` for EFLAGS, `pop reg`
otherwise. -/
def regRestoreItem (r : ℕ) : EmitItem := if r = EFLAGS_REG then .popf else .pop r

/-- The register-save prologue (`src/ROPfuscatorCore.cpp:523-538`). -/
def prologueItems (saved : Finset ℕ) (espoffset : ℤ) : List EmitItem :=
  if saved = ∅ then [] else
    [.lea espoffset] ++ (prologueRegOrder saved).map regSaveItem ++
      [.lea (4 * (saved.card : ℤ) - espoffset)]

/-- The register-restore epilogue (`src/ROPfuscatorCore.cpp:550-561`). -/
def epilogueItems (saved : Finset ℕ) : List EmitItem :=
  if saved = ∅ then [] else
    [.lea (-(4 * (saved.card : ℤ)))] ++ (epilogueRegOrder saved).map regRestoreItem

/-- The single `.symver` inline-assembly blob
(`src/ROPfuscatorCore.cpp:495-504`): the directives of the versioned symbols
collected by this chain, joined by newlines. -/
def symverText (vs : List Symbol) : String :=
  String.intercalate "\x0a" (vs.map (·.symverDirective))

/-- The symbol-version prologue of the emission stream: one inline-assembly
blob when any versioned symbol was collected, nothing otherwise. -/
def symverPart (vs : List Symbol) : List EmitItem :=
  if vs = [] then [] else [.inlineasm (symverText vs)]

/-- The emission stream after the symbol-version directives: register-save
prologue, chain label, compiled push sequence, register-restore epilogue,
`ret`, the resume label when required, and `popf` for `SAVE_AFTER_EXEC`. -/
def emitBody (env : InsertEnv) (saved : Finset ℕ) (espoffset : ℤ)
    (pushchain : List PushInst) (resumeRequired : Bool)
    (fs : FlagSaveMode) : List EmitItem :=
  prologueItems saved espoffset
  ++ [.label .chainLbl]
  ++ (pushchain.map (compilePush env.ocOut)).flatten
  ++ epilogueItems saved
  ++ [.ret]
  ++ (if resumeRequired then [.label .resumeLbl] else [])
  ++ (if fs = .saveAfterExec then [.popf] else [])

/-- Assembly of the full emission stream of one chain
(`src/ROPfuscatorCore.cpp:492-577`): symbol-version directives first, then the
body. -/
def assembleEmitted (env : InsertEnv) (vs : List Symbol) (saved : Finset ℕ)
    (espoffset : ℤ) (pushchain : List PushInst) (resumeRequired : Bool)
    (fs : FlagSaveMode) : List EmitItem :=
  symverPart vs ++ emitBody env saved espoffset pushchain resumeRequired fs

/-! ### The full emission engine -/

/-- The element sequence actually processed: when the chain has no internal
jump, a `JmpFallthrough` is appended first
(`src/ROPfuscatorCore.cpp:306-311`). -/
def processedElems (chain : ROPChain) : List ChainElem :=
  if chain.hasUnconditionalJump || chain.hasConditionalJump then chain.elems
  else chain.elems ++ [.jmpFallthrough]

/-- The environment as seen by the element loop: `isLastInstrInBlock` is
cleared when `flagSave = SAVE_AFTER_EXEC`, because a `popf` will be emitted
after the `ret` (`src/ROPfuscatorCore.cpp:328-341`). -/
def effectiveEnv (chain : ROPChain) (env : InsertEnv) : InsertEnv :=
  if chain.flagSave = .saveAfterExec then { env with isLastInstrInBlock := false }
  else env

/-- The loop state at entry: for `SAVE_AFTER_EXEC` a `PUSH_EFLAGS` is already
in the push chain and `espoffset = -4` (`src/ROPfuscatorCore.cpp:328-341`);
`used` carries the `Symbol::isUsed` flags, `rng` the RNG draw counter. -/
def initialLoopState (chain : ROPChain) (used0 : Finset ℕ) (rng0 : ℕ) : LoopState :=
  { pushchain := if chain.flagSave = .saveAfterExec then [⟨.pushEFLAGS, none⟩] else [],
    espOffsetMap := [],
    espoffset := if chain.flagSave = .saveAfterExec then -4 else 0,
    versionedSymbols := [], resumeLabelRequired := false,
    used := used0, rngIdx := rng0, labelCtr := 0,
    sideLabels := [], addedSuccs := [] }

/-- The result of one `insertROPChain` call: the assembly items emitted at the
insertion point, the final loop state (carrying the side-channel outputs and
the threaded `isUsed`/RNG state) and the saved-register set. -/
structure InsertResult where
  emitted : List EmitItem
  final : LoopState
  savedRegs : Finset ℕ
deriving DecidableEq

/-- `ROPfuscatorCore::insertROPChain` (`src/ROPfuscatorCore.cpp:283-578`),
given the abstract chain, the anchor facts and oracles in `env`, the
`Symbol::isUsed` state `used0` and the RNG draw counter `rng0`. -/
def insertROPChain (param : ObfuscationParameter) (env : InsertEnv)
    (chain : ROPChain) (used0 : Finset ℕ) (rng0 : ℕ) :
    Except String InsertResult :=
  let envEff := effectiveEnv chain env
  match lowerElems param envEff (processedElems chain).reverse
      (initialLoopState chain used0 rng0) with
  | .error msg => .error msg
  | .ok st =>
      let saved := computeSavedRegs param env.ocClobbers st.pushchain chain.flagSave
      .ok { emitted := assembleEmitted env st.versionedSymbols saved st.espoffset
              st.pushchain st.resumeLabelRequired chain.flagSave,
            final := st, savedRegs := saved }

instance : Inhabited LoopState :=
  ⟨{ pushchain := [], espOffsetMap := [], espoffset := 0, versionedSymbols := [],
     resumeLabelRequired := false, used := ∅, rngIdx := 0, labelCtr := 0,
     sideLabels := [], addedSuccs := [] }⟩

instance : Inhabited InsertResult := ⟨{ emitted := [], final := default, savedRegs := ∅ }⟩

/-- Total projection of `insertROPChain` used by witnesses: the result on the
ok path, a default value on the error path. -/
def insertRes (param : ObfuscationParameter) (env : InsertEnv) (chain : ROPChain)
    (used0 : Finset ℕ) (rng0 : ℕ) : InsertResult :=
  match insertROPChain param env chain used0 rng0 with
  | .ok r => r
  | .error _ => default

/-- `generateChainLabels` (`src/ROPfuscatorCore.cpp:249-256`): human-readable
chain and resume label names, with `$` replaced by `_` in the chain label. -/
def generateChainLabels (funcName : String) (chainID : ℕ) : String × String :=
  let chainLabel := funcName ++ "_chain_" ++ toString chainID
  let resumeLabel := "resume_" ++ chainLabel
  (chainLabel.replace "$" "_", resumeLabel)

/-! ### The function driver (`ROPfuscatorCore::obfuscateFunction`) -/

/-- Status returned by `ROPEngine::ropify`. -/
inductive ROPChainStatus where
  | ok : ROPChainStatus
  | errNotImplemented : ROPChainStatus
  | errNoRegisterAvailable : ROPChainStatus
  | errNoGadgetsAvailable : ROPChainStatus
  | errUnsupported : ROPChainStatus
  | errUnsupportedStackpointer : ROPChainStatus
deriving DecidableEq

/-- One machine instruction as seen by the driver loop, together with the
oracle data the loop consumes for it: the debug-pseudo flag, the
`shouldFlagSaved = !isSafeToClobberEFLAGS` answer passed to `ropify`, and the
status/chain that `ropify` returns for it. -/
structure MInstr where
  opcode : ℕ
  isDebug : Bool
  shouldFlagSaved : Bool
  ropifyStatus : ROPChainStatus
  ropifyResult : ROPChain
deriving DecidableEq

/-- The driver state of `obfuscateFunction`: statistics counters, the current
merged chain and its flush anchor, the deferred-deletion list, the flushed
chains handed to `insertROPChain` (chain, anchor instruction, chain id), and
the instructions actually erased so far. -/
structure DrvState where
  processed : ℕ
  obfuscated : ℕ
  chainID : ℕ
  chain0 : ROPChain
  prevMI : Option ℕ
  instrToDelete : List ℕ
  erased : List ℕ
  flushes : List (ROPChain × Option ℕ × ℕ)
  stat : ℕ → ROPChainStatus → ℕ

/-- `instr_stat[opcode][status]++`. -/
def recordStat (f : ℕ → ROPChainStatus → ℕ) (op : ℕ) (s : ROPChainStatus) :
    ℕ → ROPChainStatus → ℕ :=
  fun op2 s2 => if op2 = op ∧ s2 = s then f op2 s2 + 1 else f op2 s2

/-- Flush the in-progress merged chain at the previously seen instruction, if
one is in progress (`if (chain0.valid()) { insertROPChain(chain0, MBB, *prevMI,
chainID++, param); chain0.clear(); }`). -/
def flushPending (st : DrvState) : DrvState :=
  if st.chain0.valid then
    { st with flushes := st.flushes ++ [(st.chain0, st.prevMI, st.chainID)],
              chainID := st.chainID + 1, chain0 := {} }
  else st

/-- One iteration of the instruction loop of `obfuscateFunction`
(`src/ROPfuscatorCore.cpp:624-697`), for the instruction with index `idx`. -/
def driverStep (idx : ℕ) (i : MInstr) (st : DrvState) : DrvState :=
  if i.isDebug then st else
  let st1 := { st with processed := st.processed + 1 }
  let result := i.ropifyResult
  let isJump := result.hasConditionalJump || result.hasUnconditionalJump
  let status := if isJump ∧ result.flagSave = .saveAfterExec
    then ROPChainStatus.errUnsupported else i.ropifyStatus
  let st2 := { st1 with stat := recordStat st1.stat i.opcode status }
  if status = ROPChainStatus.ok then
    let st3 := { st2 with instrToDelete := st2.instrToDelete ++ [idx] }
    let st4 := if st3.chain0.canMerge result
      then { st3 with chain0 := st3.chain0.merge result }
      else { flushPending st3 with chain0 := result }
    { st4 with prevMI := some idx, obfuscated := st4.obfuscated + 1 }
  else
    flushPending st2

/-- The instruction loop over one block, numbering instructions from `n`. -/
def driverInstrs : List MInstr → ℕ → DrvState → DrvState
  | [], _, st => st
  | i :: rest, n, st => driverInstrs rest (n + 1) (driverStep n i st)

/-- One block iteration (`src/ROPfuscatorCore.cpp:617-710`): fresh merged
chain and anchor, the instruction loop, the final flush, then the deferred
erase of the replaced instructions. -/
def driverBlock (instrs : List MInstr) (base : ℕ) (st : DrvState) : DrvState :=
  let st1 := driverInstrs instrs base { st with chain0 := {}, prevMI := none }
  let st2 := flushPending st1
  { st2 with erased := st2.erased ++ st2.instrToDelete, instrToDelete := [] }

/-- The block loop of `obfuscateFunction`. -/
def driverBlocks : List (List MInstr) → ℕ → DrvState → DrvState
  | [], _, st => st
  | b :: bs, base, st => driverBlocks bs (base + b.length) (driverBlock b base st)

/-- The driver state at function entry. -/
def initDrvState : DrvState :=
  { processed := 0, obfuscated := 0, chainID := 0, chain0 := {}, prevMI := none,
    instrToDelete := [], erased := [], flushes := [], stat := fun _ _ => 0 }

/-- `ROPfuscatorCore::obfuscateFunction` (`src/ROPfuscatorCore.cpp:580-717`),
restricted to its driver bookkeeping: returns `none` when obfuscation is
disabled for the function (in which case nothing is processed), otherwise the
final driver state. -/
def obfuscateFunction (param : ObfuscationParameter)
    (blocks : List (List MInstr)) : Option DrvState :=
  if param.obfuscationEnabled then some (driverBlocks blocks 0 initDrvState)
  else none

/-- Number of non-debug instructions of the function: the value of the
`processed` counter used as the divisor of the per-function statistics line
`(obfuscated * 100) / processed` (`src/ROPfuscatorCore.cpp:712-717`). -/
def countNonDebug (blocks : List (List MInstr)) : ℕ :=
  (blocks.map (fun b => (b.filter (fun i => !i.isDebug)).length)).sum

/-- The divisor of the statistics expression `(obfuscated * 100) / processed`. -/
def statsDivisor (st : DrvState) : ℕ := st.processed

/-! ### Library path probing (`findLibcPath`, `src/ROPfuscatorCore.cpp:41-68`) -/

/-- File types distinguished by `llvm::sys::fs::file_type` that matter here. -/
inductive FileType where
  | regular : FileType
  | directory : FileType
  | other : FileType
deriving DecidableEq

/-- One directory entry: a file name and its type. -/
structure DirEntry where
  name : String
  ftype : FileType
deriving DecidableEq

/-- A filesystem, as observed through non-recursive directory iteration:
the entry list of each directory path (empty for a missing/unreadable
directory, where the iterator constructor sets the error code). -/
def Filesystem := String → List DirEntry

/-- The fixed probe list `POSSIBLE_LIBC_FOLDERS`. -/
def POSSIBLE_LIBC_FOLDERS : List String :=
  ["/lib/i386-linux-gnu", "/usr/lib/i386-linux-gnu", "/lib32", "/usr/lib32",
   "/usr/local/lib", "/lib", "/usr/lib"]

/-- The inner iterator loop of `findLibcPath`: scan the entries of one
directory, in iteration order, for a regular file named `libc.so.6`; the
returned path is the entry's path `dir ++ "/" ++ name`. -/
def dirSearchLibc (dir : String) : List DirEntry → Option String
  | [] => none
  | e :: rest =>
      if e.ftype = FileType.regular ∧ e.name = "libc.so.6"
      then some (dir ++ "/" ++ e.name)
      else dirSearchLibc dir rest

/-- The outer loop of `findLibcPath` over the probe list. -/
def findLibcGo (fs : Filesystem) : List String → String
  | [] => ""
  | d :: ds =>
      match dirSearchLibc d (fs d) with
      | some p => p
      | none => findLibcGo fs ds

/-- `findLibcPath` (`src/ROPfuscatorCore.cpp:51-68`): probe the fixed ordered
directory list for a regular file named `libc.so.6`; first match wins; empty
string when none is found. -/
def findLibcPath (fs : Filesystem) : String :=
  findLibcGo fs POSSIBLE_LIBC_FOLDERS

/-- Whether a directory's entry list contains a regular file `libc.so.6`
(the claim's description of a directory that "contains one"). -/
def dirHasLibc (entries : List DirEntry) : Bool :=
  entries.any (fun e => e.ftype = FileType.regular && e.name = "libc.so.6")

/-! ### Concrete example inputs (used by witnesses and counterexamples) -/

/-- A concrete versioned symbol. -/
def symA : Symbol :=
  { sid := 7, slabel := "random_sym", address := 20, version := "GLIBC_2.0",
    symverDirective := ".symver random_sym,random_sym@GLIBC_2.0" }

/-- A second concrete versioned symbol. -/
def symB : Symbol :=
  { sid := 8, slabel := "other_sym", address := 36, version := "GLIBC_2.1",
    symverDirective := ".symver other_sym,other_sym@GLIBC_2.1" }

/-- A concrete environment: the anchor is not the last instruction of its
block, the oracles are constant. -/
def envA : InsertEnv :=
  { isLastInstrInBlock := false, layoutSucc := none,
    randomSymbols := fun _ => symA, sampleIdxs := fun _ => [0],
    ocOut := fun _ => [5], ocClobbers := fun _ => {3} }

/-- A concrete environment whose anchor is the last instruction of a block
with layout successor `1`. -/
def envLast : InsertEnv :=
  { envA with isLastInstrInBlock := true, layoutSucc := some 1 }

/-- An environment drawing distinct symbols on successive draws. -/
def envAB : InsertEnv :=
  { envA with randomSymbols := fun n => if n = 0 then symA else symB }

/-- Default parameters (obfuscation on, opaque constructs off). -/
def paramPlain : ObfuscationParameter := {}

/-- Parameters with opaque predicates enabled. -/
def paramOpaquePred : ObfuscationParameter := { opaquePredicateEnabled := true }

/-- Parameters with opaque predicates and branch divergence (max 2 branches)
enabled. -/
def paramDiverge : ObfuscationParameter :=
  { opaquePredicateEnabled := true, opaqueBranchDivergenceEnabled := true,
    opaqueBranchDivergenceMaxBranches := 2 }

/-- A chain with no elements and no jump (gets a `JmpFallthrough` appended). -/
def chainEmpty : ROPChain := {}

/-- A `SAVE_AFTER_EXEC` chain with no jump. -/
def chainAfterExec : ROPChain := { flagSave := .saveAfterExec }

/-- A chain with a single immediate element. -/
def chainImm : ROPChain := { elems := [.immValue 77] }

/-- A chain exercising the `ESP_PUSH`/`ESP_OFFSET` pair; iteration order is
the reverse of element order, so the `EspPush` is iterated first. -/
def chainEsp : ROPChain := { elems := [.espOffset 1 8, .espPush 1] }

/-- A chain with one gadget element. -/
def chainGadget : ROPChain := { elems := [.gadget ⟨[100]⟩] }

/-- A gadget with four addresses. -/
def gadgetFour : Microgadget := ⟨[100, 200, 300, 400]⟩

/-- A gadget with a single address. -/
def gadgetOne : Microgadget := ⟨[100]⟩

/-- An environment sampling two positions per draw. -/
def envTwo : InsertEnv := { envA with sampleIdxs := fun _ => [1, 3] }

/-- A concrete filesystem: only `/lib32` contains `libc.so.6`. -/
def fsLib32 : Filesystem := fun d =>
  if d = "/lib32" then [{ name := "libc.so.6", ftype := FileType.regular }] else []

/-- A concrete non-debug instruction whose ropify result is a conditional
jump marked `SAVE_AFTER_EXEC` (driver must force `ERR_UNSUPPORTED`). -/
def instrJumpAfter : MInstr :=
  { opcode := 5, isDebug := false, shouldFlagSaved := true,
    ropifyStatus := .ok,
    ropifyResult := { elems := [.immValue 1], flagSave := .saveAfterExec,
                      hasConditionalJump := true } }

/-- A concrete debug pseudo-instruction. -/
def instrDebug : MInstr :=
  { opcode := 9, isDebug := true, shouldFlagSaved := false,
    ropifyStatus := .ok, ropifyResult := {} }

/-- A driver state with a pending merged chain anchored at instruction 0. -/
def drvPending : DrvState :=
  { initDrvState with chain0 := { elems := [.immValue 2] }, prevMI := some 0 }

/-- Number of non-debug instructions of one block. -/
def countND (l : List MInstr) : ℕ := (l.filter (fun i => !i.isDebug)).length

/-- The anchor symbol drawn for a gadget element processed in state `st`. -/
def gadgetSym (env : InsertEnv) (st : LoopState) : Symbol :=
  env.randomSymbols st.rngIdx

/-- The addresses sampled for a gadget element processed in state `st`. -/
def gadgetSampled (env : InsertEnv) (g : Microgadget) (st : LoopState) : List ℕ :=
  sampleList g.addresses (env.sampleIdxs st.rngIdx)

/-- The offsets (relative to the drawn anchor symbol) for a gadget element
processed in state `st`. -/
def gadgetOffs (env : InsertEnv) (g : Microgadget) (st : LoopState) : List ℕ :=
  gadgetOffsets (gadgetSym env st) (gadgetSampled env g st)

/-- The base opaque construct chosen for a gadget element processed in state
`st` (branching when more than one branch). -/
def gadgetOC (param : ObfuscationParameter) (env : InsertEnv) (g : Microgadget)
    (st : LoopState) : OpaqueConstruct :=
  gadgetBaseOC param (gadgetNumBranches param g.addresses) (gadgetOffs env g st)

/-- The push instruction appended for a gadget element processed in state
`st`. -/
def gadgetPush (param : ObfuscationParameter) (env : InsertEnv) (g : Microgadget)
    (st : LoopState) : PushInst :=
  ⟨.pushGadget (gadgetSym env st) (gadgetOffs env g st).headI,
    gadgetOpaque param env.ocOut (gadgetNumBranches param g.addresses)
      (gadgetOffs env g st)⟩

/-- Invariant tying the collected versioned symbols to the `isUsed` state:
the used set only grows, every collected symbol is marked used, was not used
before the run started, and is versioned; no symbol is collected twice. -/
def UsedInv (used0 : Finset ℕ) (st : LoopState) : Prop :=
  used0 ⊆ st.used ∧
  (∀ s ∈ st.versionedSymbols, s.sid ∈ st.used ∧ s.sid ∉ used0 ∧ s.version ≠ "Base") ∧
  (st.versionedSymbols.map (·.sid)).Nodup

/-! ## Helper lemmas -/

theorem FlagSaveMode.join_assoc (a b c : FlagSaveMode) :
    (a.join b).join c = a.join (b.join c) := by
  cases a <;> cases b <;> cases c <;> rfl

theorem FlagSaveMode.join_comm (a b : FlagSaveMode) : a.join b = b.join a := by
  cases a <;> cases b <;> rfl

/-- 32-bit round trip: computing any value `o` into EAX and adding the
wrapped difference `v - o` leaves the 32-bit truncation of `v` in EAX. -/
theorem addExec32_round (o : ℕ) (v : ℤ) : addExec32 o (toU32 (v - o)) = toU32 v := by
  simp only [addExec32, toU32, UINT32]
  omega

/-! ## C6 — opaque-lowered PUSH_IMM pushes the same architectural value -/

/-- C6: for every 32-bit value `v` and every opaque generator with declared
output `opaque_out`, the opaque-lowered `PUSH_IMM(v)` — compute `opaque_out`
into EAX, `add eax, diff` with `diff = v - opaque_out` wrapped modulo 2^32,
then `push eax` — leaves in EAX (and hence pushes) the same architectural
32-bit value as the plain `PUSH_IMM(v)`, namely `v mod 2^32`. -/
theorem pushImmOpaqueEquiv (f : OpaqueConstruct → List ℕ) (oc : OpaqueConstruct) (v : ℤ) :
    compilePush f ⟨.pushImm v, some oc⟩ =
      [.ocCompile oc, .addImm EAX (toU32 (v - ((f oc).headI % UINT32))), .pushReg EAX] ∧
    compilePush f ⟨.pushImm v, none⟩ = [.pushImm v] ∧
    addExec32 ((f oc).headI % UINT32) (toU32 (v - ((f oc).headI % UINT32))) = toU32 v ∧
    ∀ o : ℕ, addExec32 o (toU32 (v - o)) = toU32 v :=
  ⟨rfl, rfl, addExec32_round _ v, fun o => addExec32_round o v⟩

/-! ## C4 — chain merging -/

/-- C4 counterexample: merging is not commutative; concatenation of the
element lists is order-sensitive even for two mergeable single-immediate
chains. -/
theorem mergeNotComm_cex :
    ROPChain.canMerge { elems := [.immValue 1] } { elems := [.immValue 2] } = true ∧
    ROPChain.merge { elems := [.immValue 1] } { elems := [.immValue 2] } ≠
      ROPChain.merge { elems := [.immValue 2] } { elems := [.immValue 1] } := by
  constructor
  · rfl
  · intro h
    have := congrArg ROPChain.elems h
    simp [ROPChain.merge] at this

/-- C4 (amended): two chains are mergeable iff neither has a jump flag set;
merging concatenates element lists (`|merged| = |a| + |b|`) and joins the
flag-save modes in the lattice `NotSaved < SaveBeforeExec < SaveAfterExec`;
merging is associative, and the flag-save join is commutative — but merging
itself is not commutative, because concatenation preserves order. -/
theorem mergeSpec :
    (∀ a b : ROPChain, a.canMerge b = true ↔ (a.hasJump = false ∧ b.hasJump = false)) ∧
    (∀ a b : ROPChain, (a.merge b).elems.length = a.elems.length + b.elems.length) ∧
    (∀ a b c : ROPChain, (a.merge b).merge c = a.merge (b.merge c)) ∧
    (∀ a b : FlagSaveMode, a.join b = b.join a) := by
  refine ⟨?_, ?_, ?_, FlagSaveMode.join_comm⟩
  · intro a b
    simp [ROPChain.canMerge, Bool.and_eq_true, Bool.not_eq_true']
  · intro a b
    simp [ROPChain.merge]
  · intro a b c
    simp [ROPChain.merge, List.append_assoc, Bool.or_assoc, FlagSaveMode.join_assoc]

/-! ## C9 — libc path probing -/

theorem dirSearchLibc_eq_none (dir : String) (entries : List DirEntry)
    (h : dirHasLibc entries = false) : dirSearchLibc dir entries = none := by
  induction entries with
  | nil => rfl
  | cons e rest ih =>
      simp only [dirHasLibc, List.any_cons, Bool.or_eq_false_iff] at h
      rw [dirSearchLibc]
      rw [if_neg]
      · exact ih h.2
      · intro he
        simp [he.1, he.2] at h

theorem dirSearchLibc_eq_some (dir : String) (entries : List DirEntry)
    (h : dirHasLibc entries = true) :
    dirSearchLibc dir entries = some (dir ++ "/" ++ "libc.so.6") := by
  induction entries with
  | nil => simp [dirHasLibc] at h
  | cons e rest ih =>
      by_cases he : e.ftype = FileType.regular ∧ e.name = "libc.so.6"
      · rw [dirSearchLibc, if_pos he, he.2]
      · rw [dirSearchLibc, if_neg he]
        apply ih
        simp only [dirHasLibc, List.any_cons, Bool.or_eq_true] at h
        rcases h with h | h
        · exfalso
          apply he
          constructor
          · exact of_decide_eq_true (Bool.and_elim_left h)
          · exact of_decide_eq_true (Bool.and_elim_right h)
        · exact h

theorem findLibcGo_eq_empty (fs : Filesystem) (l : List String)
    (h : ∀ d ∈ l, dirHasLibc (fs d) = false) : findLibcGo fs l = "" := by
  induction l with
  | nil => rfl
  | cons d ds ih =>
      rw [findLibcGo, dirSearchLibc_eq_none d (fs d) (h d (by simp))]
      exact ih (fun d2 hd2 => h d2 (by simp [hd2]))

theorem findLibcGo_first (fs : Filesystem) (l1 : List String) (d : String)
    (l2 : List String) (hd : dirHasLibc (fs d) = true)
    (h1 : ∀ d2 ∈ l1, dirHasLibc (fs d2) = false) :
    findLibcGo fs (l1 ++ d :: l2) = d ++ "/" ++ "libc.so.6" := by
  induction l1 with
  | nil =>
      rw [List.nil_append, findLibcGo, dirSearchLibc_eq_some d (fs d) hd]
  | cons d0 ds ih =>
      rw [List.cons_append, findLibcGo,
        dirSearchLibc_eq_none d0 (fs d0) (h1 d0 (by simp))]
      exact ih (fun d2 hd2 => h1 d2 (by simp [hd2]))

theorem findLibcGo_congr (fs fs2 : Filesystem) (l : List String)
    (h : ∀ d ∈ l, fs d = fs2 d) : findLibcGo fs l = findLibcGo fs2 l := by
  induction l with
  | nil => rfl
  | cons d ds ih =>
      rw [findLibcGo, findLibcGo, h d (by simp)]
      cases dirSearchLibc d (fs2 d) with
      | some p => rfl
      | none => exact ih (fun d2 hd2 => h d2 (by simp [hd2]))

/-- C9: with no custom library path, initialization probes exactly the
ordered directory list `/lib/i386-linux-gnu`, `/usr/lib/i386-linux-gnu`,
`/lib32`, `/usr/lib32`, `/usr/local/lib`, `/lib`, `/usr/lib` for a regular
file named `libc.so.6`, without recursing into subdirectories (the result
depends only on the direct entry lists of those seven directories), and
returns the path of the first match — the empty string when no probed
directory contains one. -/
theorem findLibcPathSpec (fs fs2 : Filesystem) :
    ((∀ d ∈ POSSIBLE_LIBC_FOLDERS, dirHasLibc (fs d) = false) →
       findLibcPath fs = "") ∧
    (∀ l1 d l2, POSSIBLE_LIBC_FOLDERS = l1 ++ d :: l2 →
       dirHasLibc (fs d) = true → (∀ d2 ∈ l1, dirHasLibc (fs d2) = false) →
       findLibcPath fs = d ++ "/" ++ "libc.so.6") ∧
    ((∀ d ∈ POSSIBLE_LIBC_FOLDERS, fs d = fs2 d) →
       findLibcPath fs = findLibcPath fs2) := by
  refine ⟨fun h => findLibcGo_eq_empty fs _ h, ?_, fun h => findLibcGo_congr fs fs2 _ h⟩
  intro l1 d l2 hsplit hd h1
  rw [findLibcPath, hsplit]
  exact findLibcGo_first fs l1 d l2 hd h1

/-- C9 witness: on a concrete filesystem where only `/lib32` holds a regular
`libc.so.6`, the probe returns `/lib32/libc.so.6`; moreover the result is
insensitive to entries outside the probe list. -/
theorem findLibcPathSpec_witness :
    dirHasLibc (fsLib32 "/lib32") = true ∧
    dirHasLibc (fsLib32 "/lib/i386-linux-gnu") = false ∧
    dirHasLibc (fsLib32 "/usr/lib/i386-linux-gnu") = false ∧
    findLibcPath fsLib32 = "/lib32" ++ "/" ++ "libc.so.6" := by
  refine ⟨by decide, by decide, by decide, ?_⟩
  exact (findLibcPathSpec fsLib32 fsLib32).2.1
    ["/lib/i386-linux-gnu", "/usr/lib/i386-linux-gnu"] "/lib32"
    ["/usr/lib32", "/usr/local/lib", "/lib", "/usr/lib"]
    (by decide) (by decide) (by decide)

/-! ## C10 — the statistics divisor -/

theorem flushPending_processed (st : DrvState) :
    (flushPending st).processed = st.processed := by
  unfold flushPending
  split <;> rfl

theorem driverStep_processed (idx : ℕ) (i : MInstr) (st : DrvState) :
    (driverStep idx i st).processed = st.processed + (if i.isDebug then 0 else 1) := by
  by_cases hd : i.isDebug
  · simp [driverStep, hd]
  · simp only [Bool.not_eq_true] at hd
    simp only [driverStep, hd, Bool.false_eq_true, if_false]
    split_ifs <;> simp [flushPending_processed]

theorem driverInstrs_processed (l : List MInstr) (n : ℕ) (st : DrvState) :
    (driverInstrs l n st).processed = st.processed + countND l := by
  induction l generalizing n st with
  | nil => simp [driverInstrs, countND]
  | cons i rest ih =>
      rw [driverInstrs, ih, driverStep_processed]
      by_cases hd : i.isDebug <;> simp [countND, List.filter_cons, hd] <;> omega

theorem driverBlock_processed (instrs : List MInstr) (base : ℕ) (st : DrvState) :
    (driverBlock instrs base st).processed = st.processed + countND instrs := by
  simp [driverBlock, flushPending_processed, driverInstrs_processed]

theorem driverBlocks_processed (blocks : List (List MInstr)) (base : ℕ) (st : DrvState) :
    (driverBlocks blocks base st).processed = st.processed + countNonDebug blocks := by
  induction blocks generalizing base st with
  | nil => simp [driverBlocks, countNonDebug]
  | cons b bs ih =>
      rw [driverBlocks, ih, driverBlock_processed]
      simp [countNonDebug, countND]
      omega

theorem countNonDebug_eq_zero (blocks : List (List MInstr))
    (h : ∀ b ∈ blocks, ∀ i ∈ b, i.isDebug = true) : countNonDebug blocks = 0 := by
  induction blocks with
  | nil => rfl
  | cons b bs ih =>
      simp only [countNonDebug, List.map_cons, List.sum_cons]
      have hb : (b.filter (fun i => !i.isDebug)).length = 0 := by
        have : b.filter (fun i => !i.isDebug) = [] := by
          apply List.filter_eq_nil_iff.mpr
          intro i hi
          simp [h b (by simp) i hi]
        simp [this]
      have hbs : countNonDebug bs = 0 := ih (fun b2 hb2 => h b2 (by simp [hb2]))
      simp only [countNonDebug] at hbs
      omega

/-- C10: at the end of `obfuscateFunction`, the divisor of the statistics
expression `(obfuscated * 100) / processed` is the number of non-debug
instructions visited; the division is well-defined (positive divisor) exactly
when the function contains at least one non-debug instruction, and for a
machine function whose blocks hold only debug instructions (or none at all)
the divisor is zero. -/
theorem statsDivisorSpec (param : ObfuscationParameter)
    (blocks : List (List MInstr)) (final : DrvState)
    (h : obfuscateFunction param blocks = some final) :
    statsDivisor final = countNonDebug blocks ∧
    ((∀ b ∈ blocks, ∀ i ∈ b, i.isDebug = true) → statsDivisor final = 0) ∧
    (0 < countNonDebug blocks → 0 < statsDivisor final) := by
  have hfin : final = driverBlocks blocks 0 initDrvState := by
    by_cases hen : param.obfuscationEnabled = true
    · simp [obfuscateFunction, hen] at h
      exact h.symm
    · simp only [Bool.not_eq_true] at hen
      simp [obfuscateFunction, hen] at h
  have hp : statsDivisor final = countNonDebug blocks := by
    rw [hfin]
    simp [statsDivisor, driverBlocks_processed, initDrvState]
  refine ⟨hp, fun hall => ?_, fun hpos => ?_⟩
  · rw [hp]
    exact countNonDebug_eq_zero blocks hall
  · omega

/-- C10 witness: a function of one block holding a single debug
pseudo-instruction runs through the driver with divisor zero. -/
theorem statsDivisorSpec_witness :
    obfuscateFunction paramPlain [[instrDebug]] =
      some (driverBlocks [[instrDebug]] 0 initDrvState) ∧
    instrDebug.isDebug = true ∧
    statsDivisor (driverBlocks [[instrDebug]] 0 initDrvState) = 0 := by
  refine ⟨rfl, rfl, ?_⟩
  exact (statsDivisorSpec paramPlain [[instrDebug]] _ rfl).2.1 (by decide)

/-! ## C2 — jumps with SAVE_AFTER_EXEC are forced to ERR_UNSUPPORTED -/

theorem recordStat_self (f : ℕ → ROPChainStatus → ℕ) (op : ℕ) (s : ROPChainStatus) :
    recordStat f op s op s = f op s + 1 := by
  simp [recordStat]

theorem recordStat_other (f : ℕ → ROPChainStatus → ℕ) (op : ℕ) (s : ROPChainStatus)
    (op2 : ℕ) (s2 : ROPChainStatus) (h : ¬(op2 = op ∧ s2 = s)) :
    recordStat f op s op2 s2 = f op2 s2 := by
  simp [recordStat, h]

/-- Under the forcing condition, one driver iteration reduces to a statistics
update, a `processed` increment and a flush of the pending chain. -/
theorem driverStep_err (idx : ℕ) (i : MInstr) (st : DrvState)
    (hdbg : i.isDebug = false)
    (hjump : (i.ropifyResult.hasConditionalJump ||
        i.ropifyResult.hasUnconditionalJump) = true)
    (hsave : i.ropifyResult.flagSave = .saveAfterExec) :
    driverStep idx i st =
      flushPending { st with processed := st.processed + 1,
                             stat := recordStat st.stat i.opcode
                               ROPChainStatus.errUnsupported } := by
  simp [driverStep, hdbg, hjump, hsave]

/-- C2 (spec-modelled `valid`): for every non-debug instruction where
`shouldFlagSaved` holds and the ropifier's chain has a jump flag set and
`flagSave = SaveAfterExec`, the driver records `ERR_UNSUPPORTED` for the
instruction's opcode (regardless of the status `ropify` returned); the
original instruction is kept (the deletion list is unchanged), the in-progress
merged chain, if any, is flushed at the previously seen instruction, and
iteration continues with the next instruction. -/
theorem driverErrUnsupportedSpec (idx : ℕ) (i : MInstr) (st : DrvState)
    (hdbg : i.isDebug = false) (hflag : i.shouldFlagSaved = true)
    (hjump : (i.ropifyResult.hasConditionalJump ||
        i.ropifyResult.hasUnconditionalJump) = true)
    (hsave : i.ropifyResult.flagSave = .saveAfterExec) :
    (driverStep idx i st).stat i.opcode ROPChainStatus.errUnsupported =
        st.stat i.opcode ROPChainStatus.errUnsupported + 1 ∧
    (∀ op s, ¬(op = i.opcode ∧ s = ROPChainStatus.errUnsupported) →
        (driverStep idx i st).stat op s = st.stat op s) ∧
    (driverStep idx i st).instrToDelete = st.instrToDelete ∧
    (driverStep idx i st).obfuscated = st.obfuscated ∧
    (driverStep idx i st).processed = st.processed + 1 ∧
    (driverStep idx i st).prevMI = st.prevMI ∧
    (st.chain0.valid = true →
        (driverStep idx i st).flushes =
            st.flushes ++ [(st.chain0, st.prevMI, st.chainID)] ∧
        (driverStep idx i st).chain0 = {} ∧
        (driverStep idx i st).chainID = st.chainID + 1) ∧
    (st.chain0.valid = false →
        (driverStep idx i st).flushes = st.flushes ∧
        (driverStep idx i st).chain0 = st.chain0) ∧
    (∀ rest n st2, driverInstrs (i :: rest) n st2 =
        driverInstrs rest (n + 1) (driverStep n i st2)) := by
  rw [driverStep_err idx i st hdbg hjump hsave]
  by_cases hv : st.chain0.valid = true
  · simp [flushPending, hv, recordStat_self]
    refine ⟨fun op s hops =>
      recordStat_other st.stat i.opcode _ op s (fun hc => hops hc.1 hc.2),
      fun rest n st2 => rfl⟩
  · simp only [Bool.not_eq_true] at hv
    simp [flushPending, hv, recordStat_self]
    refine ⟨fun op s hops =>
      recordStat_other st.stat i.opcode _ op s (fun hc => hops hc.1 hc.2),
      fun rest n st2 => rfl⟩

/-- C2 witness: a concrete conditional-jump `SAVE_AFTER_EXEC` instruction,
with a pending merged chain: the `unsupported` counter is bumped and the
pending chain is flushed at the previous instruction. -/
theorem driverErrUnsupportedSpec_witness :
    instrJumpAfter.isDebug = false ∧ instrJumpAfter.shouldFlagSaved = true ∧
    (instrJumpAfter.ropifyResult.hasConditionalJump ||
        instrJumpAfter.ropifyResult.hasUnconditionalJump) = true ∧
    instrJumpAfter.ropifyResult.flagSave = .saveAfterExec ∧
    drvPending.chain0.valid = true ∧
    (driverStep 3 instrJumpAfter drvPending).stat instrJumpAfter.opcode
        ROPChainStatus.errUnsupported =
      drvPending.stat instrJumpAfter.opcode ROPChainStatus.errUnsupported + 1 ∧
    (driverStep 3 instrJumpAfter drvPending).flushes =
      drvPending.flushes ++ [(drvPending.chain0, drvPending.prevMI, drvPending.chainID)] ∧
    (driverStep 3 instrJumpAfter drvPending).instrToDelete = drvPending.instrToDelete := by
  have h := driverErrUnsupportedSpec 3 instrJumpAfter drvPending rfl rfl rfl rfl
  exact ⟨rfl, rfl, rfl, rfl, rfl, h.1, (h.2.2.2.2.2.2.1 rfl).1, h.2.2.1⟩

/-! ## C3 — ESP_PUSH / ESP_OFFSET bookkeeping -/

theorem lowerElems_append (param : ObfuscationParameter) (env : InsertEnv)
    (E1 E2 : List ChainElem) (st : LoopState) :
    lowerElems param env (E1 ++ E2) st =
      match lowerElems param env E1 st with
      | .ok st1 => lowerElems param env E2 st1
      | .error m => .error m := by
  induction E1 generalizing st with
  | nil => simp [lowerElems]
  | cons e rest ih =>
      cases h : lowerElem param env e st with
      | ok st1 => simp [lowerElems, h, ih]
      | error m => simp [lowerElems, h]

theorem lowerElems_append_ok (param : ObfuscationParameter) (env : InsertEnv)
    (E1 E2 : List ChainElem) (st stf : LoopState) :
    lowerElems param env (E1 ++ E2) st = .ok stf ↔
      ∃ st1, lowerElems param env E1 st = .ok st1 ∧
        lowerElems param env E2 st1 = .ok stf := by
  rw [lowerElems_append]
  cases h1 : lowerElems param env E1 st with
  | ok st1 => simp
  | error m => simp

theorem lowerElems_cons_ok (param : ObfuscationParameter) (env : InsertEnv)
    (e : ChainElem) (rest : List ChainElem) (st stf : LoopState)
    (h : lowerElems param env (e :: rest) st = .ok stf) :
    ∃ st1, lowerElem param env e st = .ok st1 ∧
      lowerElems param env rest st1 = .ok stf := by
  cases h1 : lowerElem param env e st with
  | ok st1 =>
      rw [lowerElems, h1] at h
      exact ⟨st1, rfl, h⟩
  | error m =>
      rw [lowerElems, h1] at h
      cases h

theorem lowerElem_espOffset_found (param : ObfuscationParameter) (env : InsertEnv)
    (st : LoopState) (eid : ℤ) (v c : ℤ)
    (h : lookupEsp st.espOffsetMap eid = some c) :
    lowerElem param env (.espOffset eid v) st =
      .ok { st with pushchain := st.pushchain ++ [⟨.pushImm (v - c), none⟩],
                    espoffset := st.espoffset - 4 } := by
  simp [lowerElem, h]

theorem lowerElem_espOffset_missing (param : ObfuscationParameter) (env : InsertEnv)
    (st : LoopState) (eid : ℤ) (v : ℤ)
    (h : lookupEsp st.espOffsetMap eid = none) :
    lowerElem param env (.espOffset eid v) st =
      .error "Internal error: ESP_OFFSET should precede corresponding ESP_PUSH" := by
  simp [lowerElem, h]

/-- One loop step either leaves the esp-offset map unchanged, or the element
was an `EspPush k` and the map gained the binding `(k, espoffset)`. -/
theorem lowerElem_espMap (param : ObfuscationParameter) (env : InsertEnv)
    (e : ChainElem) (st st2 : LoopState)
    (h : lowerElem param env e st = .ok st2) :
    st2.espOffsetMap = st.espOffsetMap ∨
      ∃ k, e = ChainElem.espPush k ∧
        st2.espOffsetMap = (k, st.espoffset) :: st.espOffsetMap := by
  cases e with
  | immValue v =>
      left
      simp [lowerElem] at h
      subst h
      rfl
  | immGlobal g v =>
      left
      simp [lowerElem] at h
      subst h
      rfl
  | gadget g =>
      left
      simp [lowerElem] at h
      subst h
      rfl
  | jmpBlock t =>
      left
      simp [lowerElem] at h
      subst h
      rfl
  | jmpFallthrough =>
      left
      by_cases hl : env.isLastInstrInBlock = true
      · cases hs : env.layoutSucc with
        | some blk =>
            simp [lowerElem, hl, hs] at h
            subst h
            rfl
        | none =>
            simp [lowerElem, hl, hs] at h
            subst h
            rfl
      · simp only [Bool.not_eq_true] at hl
        simp [lowerElem, hl] at h
        subst h
        rfl
  | espPush k =>
      right
      simp [lowerElem] at h
      exact ⟨k, rfl, by rw [← h]⟩
  | espOffset k v =>
      cases hl : lookupEsp st.espOffsetMap k with
      | some c =>
          left
          rw [lowerElem_espOffset_found param env st k v c hl] at h
          simp at h
          subst h
          rfl
      | none =>
          rw [lowerElem_espOffset_missing param env st k v hl] at h
          cases h

/-- Every key bound in the map after a run was either bound initially or
introduced by an `EspPush` of the run. -/
theorem lowerElems_keys (param : ObfuscationParameter) (env : InsertEnv)
    (E : List ChainElem) (st stf : LoopState)
    (h : lowerElems param env E st = .ok stf) :
    ∀ k c, lookupEsp stf.espOffsetMap k = some c →
      (∃ c0, lookupEsp st.espOffsetMap k = some c0) ∨ ChainElem.espPush k ∈ E := by
  induction E generalizing st with
  | nil =>
      intro k c hk
      simp [lowerElems] at h
      subst h
      exact Or.inl ⟨c, hk⟩
  | cons e rest ih =>
      cases h1 : lowerElem param env e st with
      | error m =>
          rw [lowerElems, h1] at h
          cases h
      | ok st1 =>
          rw [lowerElems, h1] at h
          intro k c hk
          rcases ih st1 h k c hk with ⟨c0, hc0⟩ | hmem
          · rcases lowerElem_espMap param env e st st1 h1 with heq | ⟨k2, hk2, heq⟩
            · exact Or.inl ⟨c0, heq ▸ hc0⟩
            · rw [heq] at hc0
              by_cases hkk : k2 = k
              · subst hkk
                exact Or.inr (by simp [hk2])
              · refine Or.inl ⟨c0, ?_⟩
                simpa [lookupEsp, hkk] using hc0
          · exact Or.inr (by simp [hmem])

/-- C3: lowering `EspOffset(id, v)` pushes the immediate `v - c` where `c` is
the stack-cursor value recorded when `EspPush(id)` was processed; when no
`EspPush(id)` has been recorded it is a fatal error (diagnostic, then the
compilation terminates); consequently, in every accepted chain every
`EspOffset(id)` is preceded, in iteration order, by an `EspPush(id)`. -/
theorem espOffsetSpec :
    (∀ param env (st : LoopState) eid v c,
        lookupEsp st.espOffsetMap eid = some c →
        lowerElem param env (.espOffset eid v) st =
          .ok { st with pushchain := st.pushchain ++ [⟨.pushImm (v - c), none⟩],
                        espoffset := st.espoffset - 4 }) ∧
    (∀ param env (st : LoopState) eid v,
        lookupEsp st.espOffsetMap eid = none →
        lowerElem param env (.espOffset eid v) st =
          .error "Internal error: ESP_OFFSET should precede corresponding ESP_PUSH") ∧
    (∀ param env E (st0 stf : LoopState),
        lowerElems param env E st0 = .ok stf →
        st0.espOffsetMap = [] →
        ∀ E1 eid v E2, E = E1 ++ ChainElem.espOffset eid v :: E2 →
          ChainElem.espPush eid ∈ E1) := by
  refine ⟨lowerElem_espOffset_found, lowerElem_espOffset_missing, ?_⟩
  intro param env E st0 stf h hmap E1 eid v E2 hE
  subst hE
  obtain ⟨st1, h1, h⟩ := (lowerElems_append_ok param env E1 _ st0 stf).mp h
  obtain ⟨st2, h2, _⟩ := lowerElems_cons_ok param env _ E2 st1 stf h
  cases hl : lookupEsp st1.espOffsetMap eid with
  | none =>
      rw [lowerElem_espOffset_missing param env st1 eid v hl] at h2
      cases h2
  | some c =>
      rcases lowerElems_keys param env E1 st0 st1 h1 eid c hl with
        ⟨c0, hc0⟩ | hmem
      · rw [hmap] at hc0
        cases hc0
      · exact hmem

/-- C3 witness: a found lookup lowers to the offset push; a missing lookup is
fatal; a concrete accepted run has the `EspPush` before the `EspOffset` in
iteration order. -/
theorem espOffsetSpec_witness :
    lookupEsp [((1 : ℤ), (0 : ℤ))] 1 = some 0 ∧
    (lowerElem paramPlain envA (.espOffset 1 8)
        { (default : LoopState) with espOffsetMap := [(1, 0)] } =
      .ok { { (default : LoopState) with espOffsetMap := [(1, 0)] } with
              pushchain := [⟨.pushImm (8 - 0), none⟩], espoffset := 0 - 4 }) ∧
    (lowerElem paramPlain envA (.espOffset 1 8) (default : LoopState) =
      .error "Internal error: ESP_OFFSET should precede corresponding ESP_PUSH") ∧
    ChainElem.espPush 1 ∈ [ChainElem.espPush 1] := by
  refine ⟨rfl, ?_, ?_, ?_⟩
  · exact espOffsetSpec.1 paramPlain envA _ 1 8 0 rfl
  · exact espOffsetSpec.2.1 paramPlain envA _ 1 8 rfl
  · exact espOffsetSpec.2.2 paramPlain envA
      [ChainElem.espPush 1, ChainElem.espOffset 1 8] (default : LoopState) _
      rfl rfl [ChainElem.espPush 1] 1 8 [] rfl

/-! ## C5 — the saved-register set -/

/-- Destructuring of a successful `insertROPChain` run. -/
theorem insertROPChain_ok (param : ObfuscationParameter) (env : InsertEnv)
    (chain : ROPChain) (used0 : Finset ℕ) (rng0 : ℕ) (res : InsertResult)
    (h : insertROPChain param env chain used0 rng0 = .ok res) :
    ∃ st, lowerElems param (effectiveEnv chain env) (processedElems chain).reverse
        (initialLoopState chain used0 rng0) = .ok st ∧
      res.final = st ∧
      res.savedRegs = computeSavedRegs param env.ocClobbers st.pushchain chain.flagSave ∧
      res.emitted = assembleEmitted env st.versionedSymbols
        (computeSavedRegs param env.ocClobbers st.pushchain chain.flagSave)
        st.espoffset st.pushchain st.resumeLabelRequired chain.flagSave := by
  cases hm : lowerElems param (effectiveEnv chain env) (processedElems chain).reverse
      (initialLoopState chain used0 rng0) with
  | error m =>
      simp only [insertROPChain] at h
      rw [hm] at h
      cases h
  | ok st =>
      simp only [insertROPChain] at h
      rw [hm] at h
      have h2 := Except.ok.inj h
      exact ⟨st, rfl, by rw [← h2], by rw [← h2], by rw [← h2]⟩

/-- Each loop step appends exactly one push instruction, whose attached
opaque constant is `none` whenever opaque predicates are disabled. -/
theorem lowerElem_pushchain (param : ObfuscationParameter) (env : InsertEnv)
    (e : ChainElem) (st st2 : LoopState)
    (h : lowerElem param env e st = .ok st2) :
    ∃ q, st2.pushchain = st.pushchain ++ [q] ∧
      (param.opaquePredicateEnabled = false → q.opaqueConstant = none) := by
  cases e with
  | immValue v =>
      simp [lowerElem] at h
      subst h
      exact ⟨_, rfl, fun hop => by simp [hop]⟩
  | immGlobal g v =>
      simp [lowerElem] at h
      subst h
      exact ⟨_, rfl, fun hop => by simp [hop]⟩
  | gadget g =>
      simp [lowerElem] at h
      subst h
      exact ⟨_, rfl, fun hop => by simp [gadgetOpaque, hop]⟩
  | jmpBlock t =>
      simp [lowerElem] at h
      subst h
      exact ⟨_, rfl, fun hop => by simp [hop]⟩
  | jmpFallthrough =>
      by_cases hl : env.isLastInstrInBlock = true
      · cases hs : env.layoutSucc with
        | some blk =>
            simp [lowerElem, hl, hs] at h
            subst h
            exact ⟨_, rfl, fun hop => by simp [hop]⟩
        | none =>
            simp [lowerElem, hl, hs] at h
            subst h
            exact ⟨_, rfl, fun _ => rfl⟩
      · simp only [Bool.not_eq_true] at hl
        simp [lowerElem, hl] at h
        subst h
        exact ⟨_, rfl, fun hop => by simp [hop]⟩
  | espPush k =>
      simp [lowerElem] at h
      subst h
      exact ⟨_, rfl, fun _ => rfl⟩
  | espOffset k v =>
      cases hl : lookupEsp st.espOffsetMap k with
      | some c =>
          rw [lowerElem_espOffset_found param env st k v c hl] at h
          have h2 := Except.ok.inj h
          subst h2
          exact ⟨_, rfl, fun _ => rfl⟩
      | none =>
          rw [lowerElem_espOffset_missing param env st k v hl] at h
          cases h

/-- All attached opaque constants stay `none` through a run when opaque
predicates are disabled. -/
theorem lowerElems_noOpaque (param : ObfuscationParameter) (env : InsertEnv)
    (hop : param.opaquePredicateEnabled = false) (E : List ChainElem)
    (st stf : LoopState) (h : lowerElems param env E st = .ok stf)
    (h0 : ∀ p ∈ st.pushchain, p.opaqueConstant = none) :
    ∀ p ∈ stf.pushchain, p.opaqueConstant = none := by
  induction E generalizing st with
  | nil =>
      simp [lowerElems] at h
      subst h
      exact h0
  | cons e rest ih =>
      obtain ⟨st1, h1, h⟩ := lowerElems_cons_ok param env e rest st stf h
      obtain ⟨q, hq, hqn⟩ := lowerElem_pushchain param env e st st1 h1
      refine ih st1 h ?_
      rw [hq]
      intro p hp
      rcases List.mem_append.mp hp with hp | hp
      · exact h0 p hp
      · rw [List.mem_singleton.mp hp]
        exact hqn hop

theorem clobUnion_eq_empty (f : OpaqueConstruct → Finset ℕ) (l : List PushInst)
    (h : ∀ p ∈ l, p.opaqueConstant = none) : clobUnion f l = ∅ := by
  suffices haux : ∀ (l2 : List PushInst) (acc : Finset ℕ),
      (∀ p ∈ l2, p.opaqueConstant = none) →
      l2.foldl (fun acc p =>
        match p.opaqueConstant with
        | some oc => acc ∪ f oc
        | none => acc) acc = acc by
    exact haux l ∅ h
  intro l2
  induction l2 with
  | nil => intro acc _; rfl
  | cons p rest ih =>
      intro acc hall
      rw [List.foldl_cons]
      have hp : p.opaqueConstant = none := hall p (by simp)
      rw [hp]
      exact ih acc (fun q hq => hall q (by simp [hq]))

/-- C5: the registers saved by the prologue (and restored in reverse order by
the epilogue) are exactly the union of the clobber sets of the opaque
constants attached to the chain's pushes, outside EFLAGS; EFLAGS is in the
save set if and only if `flagSave = SaveBeforeExec`. -/
theorem savedRegsSpec (param : ObfuscationParameter) (env : InsertEnv)
    (chain : ROPChain) (used0 : Finset ℕ) (rng0 : ℕ) (res : InsertResult)
    (h : insertROPChain param env chain used0 rng0 = .ok res) :
    res.savedRegs =
      (clobUnion env.ocClobbers res.final.pushchain \ {EFLAGS_REG}) ∪
        (if chain.flagSave = .saveBeforeExec then {EFLAGS_REG} else ∅) ∧
    (EFLAGS_REG ∈ res.savedRegs ↔ chain.flagSave = .saveBeforeExec) ∧
    (∀ r, r ≠ EFLAGS_REG →
        (r ∈ res.savedRegs ↔ r ∈ clobUnion env.ocClobbers res.final.pushchain)) ∧
    epilogueRegOrder res.savedRegs = (prologueRegOrder res.savedRegs).reverse := by
  obtain ⟨st, hm, hfin, hsaved, hemit⟩ :=
    insertROPChain_ok param env chain used0 rng0 res h
  have hset : res.savedRegs =
      (clobUnion env.ocClobbers res.final.pushchain \ {EFLAGS_REG}) ∪
        (if chain.flagSave = .saveBeforeExec then {EFLAGS_REG} else ∅) := by
    rw [hsaved, hfin]
    unfold computeSavedRegs
    by_cases hop : param.opaquePredicateEnabled = true
    · simp only [hop, if_true]
      by_cases hfs : chain.flagSave = .saveBeforeExec
      · rw [if_pos hfs, if_pos hfs]
        ext a
        simp only [Finset.mem_insert, Finset.mem_union, Finset.mem_sdiff,
          Finset.mem_singleton]
        tauto
      · rw [if_neg hfs, if_neg hfs]
        ext a
        simp only [Finset.mem_erase, Finset.mem_union, Finset.mem_sdiff,
          Finset.mem_singleton, Finset.not_mem_empty, or_false]
        tauto
    · simp only [Bool.not_eq_true] at hop
      have hnone : ∀ p ∈ st.pushchain, p.opaqueConstant = none := by
        refine lowerElems_noOpaque param (effectiveEnv chain env) hop _ _ _ hm ?_
        unfold initialLoopState
        split <;> simp
      have hU : clobUnion env.ocClobbers st.pushchain = ∅ :=
        clobUnion_eq_empty env.ocClobbers st.pushchain hnone
      rw [hU, hop]
      simp only [Bool.false_eq_true, if_false]
      by_cases hfs : chain.flagSave = .saveBeforeExec
      · rw [if_pos hfs, if_pos hfs]
        ext a
        simp
      · rw [if_neg hfs, if_neg hfs]
        ext a
        simp
  refine ⟨hset, ?_, ?_, rfl⟩
  · rw [hset]
    by_cases hfs : chain.flagSave = .saveBeforeExec <;>
      simp [hfs, Finset.mem_union, Finset.mem_sdiff]
  · intro r hr
    rw [hset]
    by_cases hfs : chain.flagSave = .saveBeforeExec <;>
      simp [hfs, Finset.mem_union, Finset.mem_sdiff, hr]

/-- C5 witness: a one-immediate chain with opaque predicates enabled; the
saved set is the opaque constant's clobber set (here `{3}`) and EFLAGS is not
saved since `flagSave = NotSaved`. -/
theorem savedRegsSpec_witness :
    insertROPChain paramOpaquePred envA chainImm ∅ 0 =
      .ok (insertRes paramOpaquePred envA chainImm ∅ 0) ∧
    (insertRes paramOpaquePred envA chainImm ∅ 0).savedRegs =
      (clobUnion envA.ocClobbers
          (insertRes paramOpaquePred envA chainImm ∅ 0).final.pushchain \
        {EFLAGS_REG}) ∪
      (if chainImm.flagSave = .saveBeforeExec then {EFLAGS_REG} else ∅) ∧
    (EFLAGS_REG ∈ (insertRes paramOpaquePred envA chainImm ∅ 0).savedRegs ↔
      chainImm.flagSave = .saveBeforeExec) := by
  have h := savedRegsSpec paramOpaquePred envA chainImm ∅ 0
    (insertRes paramOpaquePred envA chainImm ∅ 0) rfl
  exact ⟨rfl, h.1, h.2.1⟩

/-! ## C7 — branch-divergence sampling and the attached opaque construct -/

theorem sampleList_length (pop : List ℕ) (idxs : List ℕ)
    (h : ∀ i ∈ idxs, i < pop.length) : (sampleList pop idxs).length = idxs.length := by
  induction idxs with
  | nil => rfl
  | cons i rest ih =>
      have hi : i < pop.length := h i (by simp)
      simp only [sampleList, List.filterMap_cons, List.get?_eq_get hi]
      rw [List.length_cons]
      have := ih (fun j hj => h j (by simp [hj]))
      simp only [sampleList] at this
      rw [this, List.length_cons]

theorem sampleList_subset (pop : List ℕ) (idxs : List ℕ) :
    ∀ a ∈ sampleList pop idxs, a ∈ pop := by
  intro a ha
  obtain ⟨i, _, hget⟩ := List.mem_filterMap.mp ha
  exact List.get?_mem hget

theorem sampleList_nodup (pop : List ℕ) (idxs : List ℕ) (hpop : pop.Nodup)
    (hpair : idxs.Pairwise (· < ·)) (h : ∀ i ∈ idxs, i < pop.length) :
    (sampleList pop idxs).Nodup := by
  induction idxs with
  | nil => exact List.nodup_nil
  | cons i rest ih =>
      have hi : i < pop.length := h i (by simp)
      rw [List.pairwise_cons] at hpair
      have htail : (sampleList pop rest).Nodup :=
        ih hpair.2 (fun j hj => h j (by simp [hj]))
      simp only [sampleList, List.filterMap_cons, List.get?_eq_get hi]
      refine List.nodup_cons.mpr ⟨?_, htail⟩
      intro hmem
      obtain ⟨j, hj, hget⟩ := List.mem_filterMap.mp hmem
      have hjlt : j < pop.length := h j (by simp [hj])
      rw [List.get?_eq_get hjlt] at hget
      have heq : pop.get ⟨j, hjlt⟩ = pop.get ⟨i, hi⟩ := Option.some.inj hget
      have hij : (⟨j, hjlt⟩ : Fin pop.length) = ⟨i, hi⟩ := (hpop.get_inj_iff).mp heq
      have : j = i := congrArg Fin.val hij
      have hlt := hpair.1 j hj
      omega

/-- `num_branches` never exceeds the address count (for a nonempty address
list). -/
theorem gadgetNumBranches_le (param : ObfuscationParameter) (addrs : List ℕ)
    (hne : addrs ≠ []) : gadgetNumBranches param addrs ≤ addrs.length := by
  unfold gadgetNumBranches
  split
  · exact min_le_right _ _
  · exact List.length_pos.mpr hne

/-- C7 (amended): lowering a gadget element samples, under the `std::sample`
contract, exactly `k = min(max_branches, |addresses|)` distinct addresses
without replacement when branch divergence is enabled (`k = 1` when it is
disabled); every offset is computed relative to the same drawn anchor symbol;
and the attached opaque construct is the composition of a value adjustor
(mapping the base construct's possible outputs to the `k` offsets) with a
branching opaque constant over the `k` offsets when `k > 1`, and with an
ordinary opaque constant when `k = 1`. -/
theorem gadgetDivergenceSpec (param : ObfuscationParameter) (env : InsertEnv)
    (g : Microgadget) (st : LoopState)
    (hop : param.opaquePredicateEnabled = true)
    (hnd : g.addresses.Nodup) (hne : g.addresses ≠ [])
    (hs : SampleOk g.addresses (gadgetNumBranches param g.addresses)
      (env.sampleIdxs st.rngIdx)) :
    (∃ st2, lowerElem param env (.gadget g) st = .ok st2 ∧
        st2.pushchain = st.pushchain ++ [gadgetPush param env g st]) ∧
    (gadgetSampled env g st).length = gadgetNumBranches param g.addresses ∧
    (gadgetSampled env g st).Nodup ∧
    (∀ a ∈ gadgetSampled env g st, a ∈ g.addresses) ∧
    (param.opaqueBranchDivergenceEnabled = true →
        gadgetNumBranches param g.addresses =
          min param.opaqueBranchDivergenceMaxBranches g.addresses.length) ∧
    (param.opaqueBranchDivergenceEnabled = false →
        gadgetNumBranches param g.addresses = 1) ∧
    gadgetOffs env g st =
      (gadgetSampled env g st).map (fun a => sub32 a (gadgetSym env st).address) ∧
    (gadgetOffs env g st).length = gadgetNumBranches param g.addresses ∧
    (gadgetPush param env g st).opaqueConstant = some (OpaqueConstruct.compose
        (OpaqueConstruct.adjustor (env.ocOut (gadgetOC param env g st))
          (gadgetOffs env g st))
        (gadgetOC param env g st)) ∧
    (1 < gadgetNumBranches param g.addresses →
        gadgetOC param env g st = OpaqueConstruct.branching32
          (gadgetOffs env g st).length param.opaqueBranchDivergenceAlgorithm) ∧
    (gadgetNumBranches param g.addresses = 1 →
        gadgetOC param env g st =
          OpaqueConstruct.constant32 param.opaqueConstantAlgorithm) := by
  obtain ⟨hpair, hbound, hlen⟩ := hs
  have hk : gadgetNumBranches param g.addresses ≤ g.addresses.length :=
    gadgetNumBranches_le param g.addresses hne
  have hslen : (gadgetSampled env g st).length = gadgetNumBranches param g.addresses := by
    unfold gadgetSampled
    rw [sampleList_length g.addresses _ hbound, hlen]
    exact Nat.min_eq_left hk
  refine ⟨⟨_, rfl, rfl⟩, hslen, ?_, ?_, ?_, ?_, rfl, ?_, ?_, ?_, ?_⟩
  · exact sampleList_nodup g.addresses _ hnd hpair hbound
  · exact sampleList_subset g.addresses _
  · intro hdiv
    simp [gadgetNumBranches, hdiv]
  · intro hdiv
    simp [gadgetNumBranches, hdiv]
  · unfold gadgetOffs gadgetOffsets
    rw [List.length_map]
    exact hslen
  · simp [gadgetPush, gadgetOpaque, gadgetOC, hop]
  · intro h1
    simp [gadgetOC, gadgetBaseOC, h1]
  · intro h1
    simp [gadgetOC, gadgetBaseOC, h1]

/-- C7 counterexample (to the claim as stated): branch divergence enabled,
gadget with a single address, sampling contract satisfied — `k = 1` and the
attached opaque construct composes an *ordinary* opaque constant, not a
branching one, with the adjustor. -/
theorem gadgetDivergenceCex :
    paramDiverge.opaqueBranchDivergenceEnabled = true ∧
    paramDiverge.opaquePredicateEnabled = true ∧
    SampleOk gadgetOne.addresses
      (gadgetNumBranches paramDiverge gadgetOne.addresses) (envA.sampleIdxs 0) ∧
    (lowerElem paramDiverge envA (.gadget gadgetOne) (default : LoopState)).map
        (fun st2 => st2.pushchain.map
          (fun p => isBranchingComposition p.opaqueConstant)) =
      .ok [false] := by
  refine ⟨rfl, rfl, by decide, ?_⟩
  rfl

/-- C7 witness: a gadget with four addresses, `max_branches = 2`, sampling
positions 1 and 3: exactly two distinct addresses are selected and the
attached construct composes a branching opaque constant over the two
offsets. -/
theorem gadgetDivergenceSpec_witness :
    paramDiverge.opaquePredicateEnabled = true ∧
    gadgetFour.addresses.Nodup ∧ gadgetFour.addresses ≠ [] ∧
    SampleOk gadgetFour.addresses (gadgetNumBranches paramDiverge gadgetFour.addresses)
      (envTwo.sampleIdxs (default : LoopState).rngIdx) ∧
    (gadgetSampled envTwo gadgetFour default).length =
      gadgetNumBranches paramDiverge gadgetFour.addresses ∧
    (gadgetSampled envTwo gadgetFour default).Nodup ∧
    (gadgetPush paramDiverge envTwo gadgetFour default).opaqueConstant =
      some (OpaqueConstruct.compose
        (OpaqueConstruct.adjustor
          (envTwo.ocOut (gadgetOC paramDiverge envTwo gadgetFour default))
          (gadgetOffs envTwo gadgetFour default))
        (gadgetOC paramDiverge envTwo gadgetFour default)) ∧
    (1 < gadgetNumBranches paramDiverge gadgetFour.addresses →
      gadgetOC paramDiverge envTwo gadgetFour default =
        OpaqueConstruct.branching32 (gadgetOffs envTwo gadgetFour default).length
          paramDiverge.opaqueBranchDivergenceAlgorithm) := by
  have h := gadgetDivergenceSpec paramDiverge envTwo gadgetFour default rfl
    (by decide) (by decide) (by decide)
  exact ⟨rfl, by decide, by decide, by decide, h.2.1, h.2.2.1,
    h.2.2.2.2.2.2.2.2.1, h.2.2.2.2.2.2.2.2.2.1⟩

/-! ## C8 — symbol-version directives are set-once and precede the pushes -/

/-- One loop step either leaves the versioned-symbol collection and the used
set untouched, or (a gadget element whose drawn symbol is fresh and
versioned) appends the symbol and marks it used. -/
theorem lowerElem_versioned (param : ObfuscationParameter) (env : InsertEnv)
    (e : ChainElem) (st st2 : LoopState)
    (h : lowerElem param env e st = .ok st2) :
    (st2.versionedSymbols = st.versionedSymbols ∧ st2.used = st.used) ∨
    (∃ sym, sym = gadgetSym env st ∧ sym.sid ∉ st.used ∧ sym.version ≠ "Base" ∧
      st2.versionedSymbols = st.versionedSymbols ++ [sym] ∧
      st2.used = insert sym.sid st.used) := by
  cases e with
  | immValue v =>
      left
      simp [lowerElem] at h
      subst h
      exact ⟨rfl, rfl⟩
  | immGlobal g v =>
      left
      simp [lowerElem] at h
      subst h
      exact ⟨rfl, rfl⟩
  | gadget g =>
      simp [lowerElem] at h
      subst h
      by_cases hc : (env.randomSymbols st.rngIdx).sid ∉ st.used ∧
          (env.randomSymbols st.rngIdx).version ≠ "Base"
      · right
        exact ⟨env.randomSymbols st.rngIdx, rfl, hc.1, hc.2, by simp [hc], by simp [hc]⟩
      · left
        exact ⟨by simp [hc], by simp [hc]⟩
  | jmpBlock t =>
      left
      simp [lowerElem] at h
      subst h
      exact ⟨rfl, rfl⟩
  | jmpFallthrough =>
      left
      by_cases hl : env.isLastInstrInBlock = true
      · cases hs : env.layoutSucc with
        | some blk =>
            simp [lowerElem, hl, hs] at h
            subst h
            exact ⟨rfl, rfl⟩
        | none =>
            simp [lowerElem, hl, hs] at h
            subst h
            exact ⟨rfl, rfl⟩
      · simp only [Bool.not_eq_true] at hl
        simp [lowerElem, hl] at h
        subst h
        exact ⟨rfl, rfl⟩
  | espPush k =>
      left
      simp [lowerElem] at h
      subst h
      exact ⟨rfl, rfl⟩
  | espOffset k v =>
      cases hl : lookupEsp st.espOffsetMap k with
      | some c =>
          left
          rw [lowerElem_espOffset_found param env st k v c hl] at h
          have h2 := Except.ok.inj h
          subst h2
          exact ⟨rfl, rfl⟩
      | none =>
          rw [lowerElem_espOffset_missing param env st k v hl] at h
          cases h

theorem lowerElem_usedInv (param : ObfuscationParameter) (env : InsertEnv)
    (e : ChainElem) (st st2 : LoopState) (used0 : Finset ℕ)
    (h : lowerElem param env e st = .ok st2) (hinv : UsedInv used0 st) :
    UsedInv used0 st2 := by
  rcases lowerElem_versioned param env e st st2 h with ⟨hv, hu⟩ |
    ⟨sym, _, hnotin, hver, hv, hu⟩
  · unfold UsedInv at hinv ⊢
    rw [hv, hu]
    exact hinv
  · obtain ⟨hsub, hall, hnd⟩ := hinv
    refine ⟨?_, ?_, ?_⟩
    · rw [hu]
      exact hsub.trans (Finset.subset_insert _ _)
    · rw [hv, hu]
      intro s hs
      rcases List.mem_append.mp hs with hs | hs
      · obtain ⟨h1, h2, h3⟩ := hall s hs
        exact ⟨Finset.mem_insert_of_mem h1, h2, h3⟩
      · rw [List.mem_singleton.mp hs]
        exact ⟨Finset.mem_insert_self _ _, fun hc => hnotin (hsub hc), hver⟩
    · rw [hv, List.map_append]
      refine List.Nodup.append hnd (by simp) ?_
      intro a ha hb
      simp only [List.map_cons, List.map_nil, List.mem_singleton] at hb
      obtain ⟨s, hs, hsid⟩ := List.mem_map.mp ha
      apply hnotin
      rw [← hb, ← hsid]
      exact (hall s hs).1

theorem lowerElems_usedInv (param : ObfuscationParameter) (env : InsertEnv)
    (E : List ChainElem) (st stf : LoopState) (used0 : Finset ℕ)
    (h : lowerElems param env E st = .ok stf) (hinv : UsedInv used0 st) :
    UsedInv used0 stf := by
  induction E generalizing st with
  | nil =>
      simp [lowerElems] at h
      subst h
      exact hinv
  | cons e rest ih =>
      obtain ⟨st1, h1, h⟩ := lowerElems_cons_ok param env e rest st stf h
      exact ih st1 h (lowerElem_usedInv param env e st st1 used0 h1 hinv)

theorem regSaveItem_ne_inlineasm (r : ℕ) (s : String) :
    regSaveItem r ≠ .inlineasm s := by
  unfold regSaveItem
  split <;> simp

theorem regRestoreItem_ne_inlineasm (r : ℕ) (s : String) :
    regRestoreItem r ≠ .inlineasm s := by
  unfold regRestoreItem
  split <;> simp

theorem inlineasm_not_mem_compilePush (f : OpaqueConstruct → List ℕ)
    (p : PushInst) (s : String) : EmitItem.inlineasm s ∉ compilePush f p := by
  obtain ⟨k, o⟩ := p
  cases k <;> cases o <;> simp [compilePush]

theorem inlineasm_not_mem_emitBody (env : InsertEnv) (saved : Finset ℕ)
    (off : ℤ) (pc : List PushInst) (rr : Bool) (fs : FlagSaveMode) (s : String) :
    EmitItem.inlineasm s ∉ emitBody env saved off pc rr fs := by
  intro hmem
  simp only [emitBody, List.mem_append] at hmem
  rcases hmem with ((((hmem | hmem) | hmem) | hmem) | hmem) | hmem
  · rcases hmem with hmem | hmem
    · unfold prologueItems at hmem
      split at hmem
      · simp at hmem
      · simp only [List.mem_append, List.mem_singleton, List.mem_map] at hmem
        rcases hmem with (hmem | ⟨r, _, hr⟩) | hmem
        · cases hmem
        · exact regSaveItem_ne_inlineasm r s hr
        · cases hmem
    · simp at hmem
  · obtain ⟨l, hl, hmem⟩ := List.mem_flatten.mp hmem
    obtain ⟨p, _, hp⟩ := List.mem_map.mp hl
    rw [← hp] at hmem
    exact inlineasm_not_mem_compilePush env.ocOut p s hmem
  · unfold epilogueItems at hmem
    split at hmem
    · simp at hmem
    · simp only [List.cons_append, List.nil_append, List.mem_cons,
        List.mem_map] at hmem
      rcases hmem with hmem | ⟨r, _, hr⟩
      · cases hmem
      · exact regRestoreItem_ne_inlineasm r s hr
  · simp at hmem
  · split at hmem <;> simp at hmem
  · split at hmem <;> simp at hmem

/-- C8: a `.symver` directive is emitted at most once per symbol — the
`isUsed` flag only transitions false → true and is checked before a symbol is
collected — and only for symbols whose version is not `"Base"`; the
directives form the first item of the chain's emission stream, before every
push of the chain body; and a second chain (threading the `isUsed` state)
never re-collects a symbol already collected by the first. -/
theorem symverSpec (param param2 : ObfuscationParameter) (env env2 : InsertEnv)
    (chain chain2 : ROPChain) (used0 : Finset ℕ) (rng0 : ℕ)
    (res res2 : InsertResult)
    (h1 : insertROPChain param env chain used0 rng0 = .ok res)
    (h2 : insertROPChain param2 env2 chain2 res.final.used res.final.rngIdx = .ok res2) :
    (res.final.versionedSymbols.map (·.sid)).Nodup ∧
    (∀ s ∈ res.final.versionedSymbols,
        s.version ≠ "Base" ∧ s.sid ∉ used0 ∧ s.sid ∈ res.final.used) ∧
    used0 ⊆ res.final.used ∧
    (∀ s2 ∈ res2.final.versionedSymbols, ∀ s1 ∈ res.final.versionedSymbols,
        s2.sid ≠ s1.sid) ∧
    (∃ body, res.emitted = symverPart res.final.versionedSymbols ++ body ∧
        ∀ s, EmitItem.inlineasm s ∉ body) := by
  obtain ⟨st, hm, hfin, hsaved, hemit⟩ :=
    insertROPChain_ok param env chain used0 rng0 res h1
  obtain ⟨st2, hm2, hfin2, _, _⟩ :=
    insertROPChain_ok param2 env2 chain2 res.final.used res.final.rngIdx res2 h2
  have hinit : UsedInv used0 (initialLoopState chain used0 rng0) := by
    refine ⟨by simp [initialLoopState], ?_, ?_⟩ <;> simp [initialLoopState]
  have hinv : UsedInv used0 st :=
    lowerElems_usedInv param (effectiveEnv chain env) _ _ st used0 hm hinit
  have hinit2 : UsedInv res.final.used
      (initialLoopState chain2 res.final.used res.final.rngIdx) := by
    refine ⟨by simp [initialLoopState], ?_, ?_⟩ <;> simp [initialLoopState]
  have hinv2 : UsedInv res.final.used st2 :=
    lowerElems_usedInv param2 (effectiveEnv chain2 env2) _ _ st2 res.final.used hm2 hinit2
  rw [hfin]
  refine ⟨hinv.2.2, ?_, hinv.1, ?_, ?_⟩
  · intro s hs
    obtain ⟨hu, hn, hv⟩ := hinv.2.1 s hs
    exact ⟨hv, hn, hu⟩
  · intro s2 hs2 s1 hs1 heq
    rw [hfin] at hinv2
    have hn2 : s2.sid ∉ st.used := (hinv2.2.1 s2 (hfin2 ▸ hs2)).2.1
    have hi1 : s1.sid ∈ st.used := (hinv.2.1 s1 hs1).1
    rw [heq] at hn2
    exact hn2 hi1
  · refine ⟨emitBody env
      (computeSavedRegs param env.ocClobbers st.pushchain chain.flagSave)
      st.espoffset st.pushchain st.resumeLabelRequired chain.flagSave, ?_, ?_⟩
    · rw [hemit]
      rfl
    · intro s
      exact inlineasm_not_mem_emitBody env _ _ _ _ _ s

/-- C8 witness: two successive chains drawing the same versioned symbol: the
first collects it (exactly once), the second does not collect it again; the
directive blob heads the emission stream. -/
theorem symverSpec_witness :
    insertROPChain paramPlain envA chainGadget ∅ 0 =
      .ok (insertRes paramPlain envA chainGadget ∅ 0) ∧
    insertROPChain paramPlain envA chainGadget
        (insertRes paramPlain envA chainGadget ∅ 0).final.used
        (insertRes paramPlain envA chainGadget ∅ 0).final.rngIdx =
      .ok (insertRes paramPlain envA chainGadget
        (insertRes paramPlain envA chainGadget ∅ 0).final.used
        (insertRes paramPlain envA chainGadget ∅ 0).final.rngIdx) ∧
    ((insertRes paramPlain envA chainGadget ∅ 0).final.versionedSymbols.map
        (·.sid)).Nodup ∧
    (∅ : Finset ℕ) ⊆ (insertRes paramPlain envA chainGadget ∅ 0).final.used ∧
    (insertRes paramPlain envA chainGadget ∅ 0).final.versionedSymbols = [symA] ∧
    (insertRes paramPlain envA chainGadget
        (insertRes paramPlain envA chainGadget ∅ 0).final.used
        (insertRes paramPlain envA chainGadget ∅ 0).final.rngIdx).final.versionedSymbols
      = [] := by
  have h := symverSpec paramPlain paramPlain envA envA chainGadget chainGadget ∅ 0
    (insertRes paramPlain envA chainGadget ∅ 0)
    (insertRes paramPlain envA chainGadget
      (insertRes paramPlain envA chainGadget ∅ 0).final.used
      (insertRes paramPlain envA chainGadget ∅ 0).final.rngIdx)
    rfl rfl
  exact ⟨rfl, rfl, h.1, h.2.2.1, by decide, by decide⟩

/-! ## C1 — JmpFallthrough lowering and the resume label -/

theorem lowerElem_fallthrough_succ (param : ObfuscationParameter) (env : InsertEnv)
    (st : LoopState) (b : ℕ) (hl : env.isLastInstrInBlock = true)
    (hs : env.layoutSucc = some b) :
    ∃ oc, lowerElem param env .jmpFallthrough st = .ok { st with
      sideLabels := st.sideLabels ++ [(b, AsmLabel.resumeLbl)],
      pushchain := st.pushchain ++ [⟨.pushLabel .resumeLbl, oc⟩],
      espoffset := st.espoffset - 4 } :=
  ⟨if param.opaquePredicateEnabled && param.obfuscateBranchTarget
    then some (OpaqueConstruct.constant32 param.opaqueConstantAlgorithm) else none,
   by simp [lowerElem, hl, hs]⟩

theorem lowerElem_fallthrough_nosucc (param : ObfuscationParameter) (env : InsertEnv)
    (st : LoopState) (hl : env.isLastInstrInBlock = true)
    (hs : env.layoutSucc = none) :
    lowerElem param env .jmpFallthrough st = .ok { st with
      pushchain := st.pushchain ++ [⟨.pushImm 0, none⟩],
      espoffset := st.espoffset - 4 } := by
  simp [lowerElem, hl, hs]

theorem lowerElem_fallthrough_notlast (param : ObfuscationParameter) (env : InsertEnv)
    (st : LoopState) (hl : env.isLastInstrInBlock = false) :
    ∃ oc, lowerElem param env .jmpFallthrough st = .ok { st with
      pushchain := st.pushchain ++ [⟨.pushLabel .resumeLbl, oc⟩],
      resumeLabelRequired := true, espoffset := st.espoffset - 4 } :=
  ⟨if param.opaquePredicateEnabled && param.obfuscateBranchTarget
    then some (OpaqueConstruct.constant32 param.opaqueConstantAlgorithm) else none,
   by simp [lowerElem, hl]⟩

/-- Monotonicity facts of one loop step: side labels and pushes are only
appended; the resume flag only rises, and never changes while the anchor is
(effectively) the last instruction of its block. -/
theorem lowerElem_mono (param : ObfuscationParameter) (env : InsertEnv)
    (e : ChainElem) (st st2 : LoopState)
    (h : lowerElem param env e st = .ok st2) :
    (∀ x ∈ st.sideLabels, x ∈ st2.sideLabels) ∧
    (∀ p ∈ st.pushchain, p ∈ st2.pushchain) ∧
    (st.resumeLabelRequired = true → st2.resumeLabelRequired = true) ∧
    (env.isLastInstrInBlock = true →
      st2.resumeLabelRequired = st.resumeLabelRequired) := by
  cases e with
  | immValue v =>
      simp [lowerElem] at h
      subst h
      exact ⟨fun x hx => hx, fun p hp => by simp [hp], fun hr => hr, fun _ => rfl⟩
  | immGlobal g v =>
      simp [lowerElem] at h
      subst h
      exact ⟨fun x hx => hx, fun p hp => by simp [hp], fun hr => hr, fun _ => rfl⟩
  | gadget g =>
      simp [lowerElem] at h
      subst h
      exact ⟨fun x hx => hx, fun p hp => by simp [hp], fun hr => hr, fun _ => rfl⟩
  | jmpBlock t =>
      simp [lowerElem] at h
      subst h
      exact ⟨fun x hx => by simp [hx], fun p hp => by simp [hp], fun hr => hr,
        fun _ => rfl⟩
  | jmpFallthrough =>
      by_cases hl : env.isLastInstrInBlock = true
      · cases hs : env.layoutSucc with
        | some blk =>
            simp [lowerElem, hl, hs] at h
            subst h
            exact ⟨fun x hx => by simp [hx], fun p hp => by simp [hp], fun hr => hr,
              fun _ => rfl⟩
        | none =>
            simp [lowerElem, hl, hs] at h
            subst h
            exact ⟨fun x hx => hx, fun p hp => by simp [hp], fun hr => hr,
              fun _ => rfl⟩
      · simp only [Bool.not_eq_true] at hl
        simp [lowerElem, hl] at h
        subst h
        refine ⟨fun x hx => hx, fun p hp => by simp [hp], fun _ => rfl, fun hc => ?_⟩
        rw [hc] at hl
        cases hl
  | espPush k =>
      simp [lowerElem] at h
      subst h
      exact ⟨fun x hx => hx, fun p hp => by simp [hp], fun hr => hr, fun _ => rfl⟩
  | espOffset k v =>
      cases hlk : lookupEsp st.espOffsetMap k with
      | some c =>
          rw [lowerElem_espOffset_found param env st k v c hlk] at h
          have h2 := Except.ok.inj h
          subst h2
          exact ⟨fun x hx => hx, fun p hp => by simp [hp], fun hr => hr, fun _ => rfl⟩
      | none =>
          rw [lowerElem_espOffset_missing param env st k v hlk] at h
          cases h

theorem lowerElems_mono (param : ObfuscationParameter) (env : InsertEnv)
    (E : List ChainElem) (st stf : LoopState)
    (h : lowerElems param env E st = .ok stf) :
    (∀ x ∈ st.sideLabels, x ∈ stf.sideLabels) ∧
    (∀ p ∈ st.pushchain, p ∈ stf.pushchain) ∧
    (st.resumeLabelRequired = true → stf.resumeLabelRequired = true) ∧
    (env.isLastInstrInBlock = true →
      stf.resumeLabelRequired = st.resumeLabelRequired) := by
  induction E generalizing st with
  | nil =>
      simp [lowerElems] at h
      subst h
      exact ⟨fun x hx => hx, fun p hp => hp, fun hr => hr, fun _ => rfl⟩
  | cons e rest ih =>
      obtain ⟨st1, h1, h⟩ := lowerElems_cons_ok param env e rest st stf h
      obtain ⟨m1, m2, m3, m4⟩ := lowerElem_mono param env e st st1 h1
      obtain ⟨n1, n2, n3, n4⟩ := ih st1 h
      exact ⟨fun x hx => n1 x (m1 x hx), fun p hp => n2 p (m2 p hp),
        fun hr => n3 (m3 hr), fun hl => by rw [n4 hl, m4 hl]⟩

theorem run_fallthrough_succ (param : ObfuscationParameter) (env : InsertEnv)
    (E : List ChainElem) (st stf : LoopState) (b : ℕ)
    (hl : env.isLastInstrInBlock = true) (hs : env.layoutSucc = some b)
    (hft : ChainElem.jmpFallthrough ∈ E)
    (h : lowerElems param env E st = .ok stf) :
    (b, AsmLabel.resumeLbl) ∈ stf.sideLabels ∧
      ∃ p ∈ stf.pushchain, p.kind = .pushLabel .resumeLbl := by
  induction E generalizing st with
  | nil => cases hft
  | cons e rest ih =>
      obtain ⟨st1, h1, hrest⟩ := lowerElems_cons_ok param env e rest st stf h
      rcases List.mem_cons.mp hft with heq | hmem
      · subst heq
        obtain ⟨oc, heq1⟩ := lowerElem_fallthrough_succ param env st b hl hs
        rw [heq1] at h1
        have h2 := Except.ok.inj h1
        obtain ⟨n1, n2, _, _⟩ := lowerElems_mono param env rest st1 stf hrest
        constructor
        · refine n1 _ ?_
          rw [← h2]
          simp
        · refine ⟨⟨.pushLabel .resumeLbl, oc⟩, n2 _ ?_, rfl⟩
          rw [← h2]
          simp
      · exact ih st1 hmem hrest

theorem run_fallthrough_nosucc (param : ObfuscationParameter) (env : InsertEnv)
    (E : List ChainElem) (st stf : LoopState)
    (hl : env.isLastInstrInBlock = true) (hs : env.layoutSucc = none)
    (hft : ChainElem.jmpFallthrough ∈ E)
    (h : lowerElems param env E st = .ok stf) :
    ∃ p ∈ stf.pushchain, p.kind = .pushImm 0 ∧ p.opaqueConstant = none := by
  induction E generalizing st with
  | nil => cases hft
  | cons e rest ih =>
      obtain ⟨st1, h1, hrest⟩ := lowerElems_cons_ok param env e rest st stf h
      rcases List.mem_cons.mp hft with heq | hmem
      · subst heq
        rw [lowerElem_fallthrough_nosucc param env st hl hs] at h1
        have h2 := Except.ok.inj h1
        obtain ⟨_, n2, _, _⟩ := lowerElems_mono param env rest st1 stf hrest
        refine ⟨⟨.pushImm 0, none⟩, n2 _ ?_, rfl, rfl⟩
        rw [← h2]
        simp
      · exact ih st1 hmem hrest

theorem run_fallthrough_notlast (param : ObfuscationParameter) (env : InsertEnv)
    (E : List ChainElem) (st stf : LoopState)
    (hl : env.isLastInstrInBlock = false)
    (hft : ChainElem.jmpFallthrough ∈ E)
    (h : lowerElems param env E st = .ok stf) :
    (∃ p ∈ stf.pushchain, p.kind = .pushLabel .resumeLbl) ∧
      stf.resumeLabelRequired = true := by
  induction E generalizing st with
  | nil => cases hft
  | cons e rest ih =>
      obtain ⟨st1, h1, hrest⟩ := lowerElems_cons_ok param env e rest st stf h
      rcases List.mem_cons.mp hft with heq | hmem
      · subst heq
        obtain ⟨oc, heq1⟩ := lowerElem_fallthrough_notlast param env st hl
        rw [heq1] at h1
        have h2 := Except.ok.inj h1
        obtain ⟨_, n2, n3, _⟩ := lowerElems_mono param env rest st1 stf hrest
        constructor
        · refine ⟨⟨.pushLabel .resumeLbl, oc⟩, n2 _ ?_, rfl⟩
          rw [← h2]
          simp
        · refine n3 ?_
          rw [← h2]
      · exact ih st1 hmem hrest

theorem effectiveEnv_layoutSucc (chain : ROPChain) (env : InsertEnv) :
    (effectiveEnv chain env).layoutSucc = env.layoutSucc := by
  unfold effectiveEnv
  split <;> rfl

theorem regSaveItem_ne_label (r : ℕ) (l : AsmLabel) : regSaveItem r ≠ .label l := by
  unfold regSaveItem
  split <;> simp

theorem regRestoreItem_ne_label (r : ℕ) (l : AsmLabel) :
    regRestoreItem r ≠ .label l := by
  unfold regRestoreItem
  split <;> simp

theorem label_not_mem_compilePush (f : OpaqueConstruct → List ℕ) (p : PushInst)
    (l : AsmLabel) : EmitItem.label l ∉ compilePush f p := by
  obtain ⟨k, o⟩ := p
  cases k <;> cases o <;> simp [compilePush]

theorem label_not_mem_prologue (saved : Finset ℕ) (off : ℤ) (l : AsmLabel) :
    EmitItem.label l ∉ prologueItems saved off := by
  intro hmem
  unfold prologueItems at hmem
  split at hmem
  · simp at hmem
  · simp only [List.mem_append, List.mem_singleton, List.mem_map] at hmem
    rcases hmem with (hmem | ⟨r, _, hr⟩) | hmem
    · cases hmem
    · exact regSaveItem_ne_label r l hr
    · cases hmem

theorem label_not_mem_epilogue (saved : Finset ℕ) (l : AsmLabel) :
    EmitItem.label l ∉ epilogueItems saved := by
  intro hmem
  unfold epilogueItems at hmem
  split at hmem
  · simp at hmem
  · simp only [List.cons_append, List.nil_append, List.mem_cons,
      List.mem_map] at hmem
    rcases hmem with hmem | ⟨r, _, hr⟩
    · cases hmem
    · exact regRestoreItem_ne_label r l hr

theorem label_not_mem_flatten (f : OpaqueConstruct → List ℕ)
    (pc : List PushInst) (l : AsmLabel) :
    EmitItem.label l ∉ (pc.map (compilePush f)).flatten := by
  intro hmem
  obtain ⟨lst, hl, hmem⟩ := List.mem_flatten.mp hmem
  obtain ⟨p, _, hp⟩ := List.mem_map.mp hl
  rw [← hp] at hmem
  exact label_not_mem_compilePush f p l hmem

theorem label_not_mem_symverPart (vs : List Symbol) (l : AsmLabel) :
    EmitItem.label l ∉ symverPart vs := by
  unfold symverPart
  split <;> simp

/-- With `resumeLabelRequired = false`, the resume label does not occur in the
emission body. -/
theorem label_resume_not_mem_emitBody (env : InsertEnv) (saved : Finset ℕ)
    (off : ℤ) (pc : List PushInst) (fs : FlagSaveMode) :
    EmitItem.label .resumeLbl ∉ emitBody env saved off pc false fs := by
  intro hmem
  simp only [emitBody, List.mem_append] at hmem
  rcases hmem with ((((hmem | hmem) | hmem) | hmem) | hmem) | hmem
  · rcases hmem with hmem | hmem
    · exact label_not_mem_prologue saved off _ hmem
    · simp at hmem
  · exact label_not_mem_flatten env.ocOut pc _ hmem
  · exact label_not_mem_epilogue saved _ hmem
  · simp at hmem
  · simp at hmem
  · split at hmem <;> simp at hmem

/-- With `resumeLabelRequired = true`, the emission body is `... ret,
resume-label ...` and holds the resume label exactly once. -/
theorem emitBody_resume_true (env : InsertEnv) (saved : Finset ℕ) (off : ℤ)
    (pc : List PushInst) (fs : FlagSaveMode) :
    ∃ pre post, emitBody env saved off pc true fs =
        pre ++ [EmitItem.ret, EmitItem.label .resumeLbl] ++ post ∧
      (emitBody env saved off pc true fs).count (EmitItem.label .resumeLbl) = 1 := by
  refine ⟨prologueItems saved off ++ [EmitItem.label .chainLbl] ++
    (pc.map (compilePush env.ocOut)).flatten ++ epilogueItems saved,
    (if fs = .saveAfterExec then [EmitItem.popf] else []), ?_, ?_⟩
  · simp [emitBody, List.append_assoc]
  · have hz : ∀ (l : List EmitItem), EmitItem.label .resumeLbl ∉ l →
        l.count (EmitItem.label .resumeLbl) = 0 := fun l hl => List.count_eq_zero.mpr hl
    simp only [emitBody, List.count_append]
    rw [hz _ (label_not_mem_prologue saved off _),
        hz _ (label_not_mem_flatten env.ocOut pc _),
        hz _ (label_not_mem_epilogue saved _)]
    have h4 : (if fs = FlagSaveMode.saveAfterExec then [EmitItem.popf]
        else []).count (EmitItem.label .resumeLbl) = 0 := by
      split <;> decide
    rw [h4]
    norm_num [List.count_cons, List.count_nil]
    exact ⟨by decide, by decide⟩

/-- C1 (amended): the case split of `JmpFallthrough` lowering is driven by the
*effective* last-instruction flag, which is the anchor's last-instruction flag
cleared when `flagSave = SaveAfterExec` (a `popf` follows the `ret`).  When
effectively last with a layout successor among the block's successors, the
resume label is attached to the start of that successor, a push of that label
is emitted, and no resume label is emitted after the `ret`; when effectively
last with no layout successor, an immediate 0 is pushed (with no opaque
wrapper) and no resume label is emitted; otherwise the resume label is pushed
and emitted exactly once, immediately after the `ret`. -/
theorem jmpFallthroughSpec (param : ObfuscationParameter) (env : InsertEnv)
    (chain : ROPChain) (used0 : Finset ℕ) (rng0 : ℕ) (res : InsertResult)
    (h : insertROPChain param env chain used0 rng0 = .ok res)
    (hft : ChainElem.jmpFallthrough ∈ processedElems chain) :
    (chain.flagSave = .saveAfterExec →
        (effectiveEnv chain env).isLastInstrInBlock = false) ∧
    (chain.flagSave ≠ .saveAfterExec →
        (effectiveEnv chain env).isLastInstrInBlock = env.isLastInstrInBlock) ∧
    ((effectiveEnv chain env).isLastInstrInBlock = true →
      ∀ b, env.layoutSucc = some b →
        (b, AsmLabel.resumeLbl) ∈ res.final.sideLabels ∧
        (∃ p ∈ res.final.pushchain, p.kind = .pushLabel .resumeLbl) ∧
        res.final.resumeLabelRequired = false ∧
        EmitItem.label .resumeLbl ∉ res.emitted) ∧
    ((effectiveEnv chain env).isLastInstrInBlock = true → env.layoutSucc = none →
        (∃ p ∈ res.final.pushchain, p.kind = .pushImm 0 ∧ p.opaqueConstant = none) ∧
        res.final.resumeLabelRequired = false ∧
        EmitItem.label .resumeLbl ∉ res.emitted) ∧
    ((effectiveEnv chain env).isLastInstrInBlock = false →
        (∃ p ∈ res.final.pushchain, p.kind = .pushLabel .resumeLbl) ∧
        res.final.resumeLabelRequired = true ∧
        (∃ pre post, res.emitted =
          pre ++ [EmitItem.ret, EmitItem.label .resumeLbl] ++ post) ∧
        res.emitted.count (EmitItem.label .resumeLbl) = 1) := by
  obtain ⟨st, hm, hfin, hsaved, hemit⟩ :=
    insertROPChain_ok param env chain used0 rng0 res h
  have hft2 : ChainElem.jmpFallthrough ∈ (processedElems chain).reverse :=
    List.mem_reverse.mpr hft
  refine ⟨fun hfs => by simp [effectiveEnv, hfs],
    fun hfs => by simp [effectiveEnv, hfs], ?_, ?_, ?_⟩
  · intro hl b hs
    have hs2 : (effectiveEnv chain env).layoutSucc = some b := by
      rw [effectiveEnv_layoutSucc]
      exact hs
    have hrun := run_fallthrough_succ param (effectiveEnv chain env) _ _ st b
      hl hs2 hft2 hm
    have hres : st.resumeLabelRequired = false :=
      (lowerElems_mono param (effectiveEnv chain env) _ _ st hm).2.2.2 hl
    rw [hfin]
    refine ⟨hrun.1, hrun.2, hres, ?_⟩
    rw [hemit, hres]
    intro hmem
    rcases List.mem_append.mp hmem with hmem | hmem
    · exact label_not_mem_symverPart _ _ hmem
    · exact label_resume_not_mem_emitBody env _ _ _ _ hmem
  · intro hl hs
    have hs2 : (effectiveEnv chain env).layoutSucc = none := by
      rw [effectiveEnv_layoutSucc]
      exact hs
    have hrun := run_fallthrough_nosucc param (effectiveEnv chain env) _ _ st
      hl hs2 hft2 hm
    have hres : st.resumeLabelRequired = false :=
      (lowerElems_mono param (effectiveEnv chain env) _ _ st hm).2.2.2 hl
    rw [hfin]
    refine ⟨hrun, hres, ?_⟩
    rw [hemit, hres]
    intro hmem
    rcases List.mem_append.mp hmem with hmem | hmem
    · exact label_not_mem_symverPart _ _ hmem
    · exact label_resume_not_mem_emitBody env _ _ _ _ hmem
  · intro hl
    have hrun := run_fallthrough_notlast param (effectiveEnv chain env) _ _ st
      hl hft2 hm
    have hres : st.resumeLabelRequired = true := hrun.2
    rw [hfin, hemit, hres]
    obtain ⟨pre, post, heq, hcount⟩ := emitBody_resume_true env
      (computeSavedRegs param env.ocClobbers st.pushchain chain.flagSave)
      st.espoffset st.pushchain chain.flagSave
    refine ⟨hrun.1, rfl, ?_, ?_⟩
    · refine ⟨symverPart st.versionedSymbols ++ pre, post, ?_⟩
      unfold assembleEmitted
      rw [heq]
      simp [List.append_assoc]
    · unfold assembleEmitted
      rw [List.count_append, hcount,
        List.count_eq_zero.mpr (label_not_mem_symverPart st.versionedSymbols _)]

/-- C1 counterexample (to the claim as stated): a `SAVE_AFTER_EXEC` chain
whose anchor *is* the last instruction of a block *with* a layout successor:
the code still takes the not-last path — no label is attached to the
successor's start and the resume label is required after the `ret`. -/
theorem jmpFallthroughCex :
    chainAfterExec.flagSave = .saveAfterExec ∧
    envLast.isLastInstrInBlock = true ∧
    envLast.layoutSucc = some 1 ∧
    ChainElem.jmpFallthrough ∈ processedElems chainAfterExec ∧
    (insertROPChain paramPlain envLast chainAfterExec ∅ 0).map
        (fun r => (r.final.sideLabels, r.final.resumeLabelRequired)) =
      .ok ([], true) :=
  ⟨rfl, rfl, rfl, by decide, rfl⟩

/-- C1 witness: an empty non-jumping chain anchored at a non-final
instruction: the resume label is pushed, required, and emitted exactly once
after the `ret`. -/
theorem jmpFallthroughSpec_witness :
    insertROPChain paramPlain envA chainEmpty ∅ 0 =
      .ok (insertRes paramPlain envA chainEmpty ∅ 0) ∧
    ChainElem.jmpFallthrough ∈ processedElems chainEmpty ∧
    (effectiveEnv chainEmpty envA).isLastInstrInBlock = false ∧
    (insertRes paramPlain envA chainEmpty ∅ 0).final.resumeLabelRequired = true ∧
    (insertRes paramPlain envA chainEmpty ∅ 0).emitted.count
        (EmitItem.label .resumeLbl) = 1 := by
  have h := jmpFallthroughSpec paramPlain envA chainEmpty ∅ 0 _ rfl (by decide)
  have hc := h.2.2.2.2 rfl
  exact ⟨rfl, by decide, rfl, hc.2.1, hc.2.2.2⟩

end Ropf
